/-
Verification of the agent-mesh orchestration engine against its
natural-language specification.

The definitions below are shallow embeddings of the TypeScript sources:
  * `AgentMesh` (scheduler): `processRequest`, `executePlan`
  * `Shaka` (planner): `buildDAG`, `getReadyTasks`, `markTaskComplete`,
    `isDAGComplete`
  * `PunkRecords` (hybrid store): `chunkText`, `search`, `addDocument`,
    `getAllEmbeddings`, `semanticSearch`
  * `Atlas` (executor): `executeToolWithRetry`, `analyzeErrorForRetry`
  * `Lilith` (critic): `calculateScore`, the `approved` rule of `critique`
  * `York` (resource manager): `evaluateEviction`, `performContextEviction`

JavaScript strings are modelled as `List Char`, JavaScript numbers as `ℚ`
(or `ℤ`/`ℕ` where the source only ever holds integers), `Map` objects as
association lists in insertion order, and external services (LLM, embedder,
Voy, FlexSearch, IndexedDB, MCP transport) as oracle parameters.
-/
import Mathlib

set_option autoImplicit false

namespace AgentMesh

/-! ### DAG data model (types/satellites.ts) -/

/-- Status of a DAG node: `pending | ready | running | completed | failed`. -/
inductive NodeStatus where
  | pending
  | ready
  | running
  | completed
  | failed
  deriving DecidableEq, Repr

/-- A node of the task DAG. -/
structure DAGNode where
  id : String
  taskId : String
  satelliteId : String
  status : NodeStatus
  dependencies : List String
  dependents : List String
  deriving DecidableEq, Repr

/-- The task DAG: nodes are kept in `Map` insertion order. -/
structure TaskDAG where
  nodes : List DAGNode
  rootNodes : List String
  leafNodes : List String
  deriving DecidableEq, Repr

/-- `dag.nodes.get(id)`: first node carrying the id (a JS `Map` has unique
keys, so on representable states this is the unique such node). -/
def getNode (dag : TaskDAG) (nodeId : String) : Option DAGNode :=
  dag.nodes.find? (fun n => n.id = nodeId)

/-- Status of the node registered under `nodeId`. -/
def statusById (dag : TaskDAG) (nodeId : String) : Option NodeStatus :=
  (getNode dag nodeId).map (fun n => n.status)

/-- Dependencies of the node registered under `nodeId`. -/
def depsById (dag : TaskDAG) (nodeId : String) : Option (List String) :=
  (getNode dag nodeId).map (fun n => n.dependencies)

/-- `node.status = st` for the node registered under `nodeId`
(in the source a plain field assignment on the `Map` entry). -/
def setStatus (dag : TaskDAG) (nodeId : String) (st : NodeStatus) : TaskDAG :=
  { dag with
    nodes := dag.nodes.map (fun n => if n.id = nodeId then { n with status := st } else n) }

/-- `dag.nodes.get(depId)?.status === 'completed'`. -/
def isDepCompleted (dag : TaskDAG) (depId : String) : Bool :=
  match getNode dag depId with
  | some depNode => depNode.status = NodeStatus.completed
  | none => false

/-- `node.dependencies.every(depId => dag.nodes.get(depId)?.status === 'completed')`. -/
def allDepsComplete (dag : TaskDAG) (deps : List String) : Bool :=
  deps.all (isDepCompleted dag)

/-! ### Shaka.buildDAG -/

/-- One task of a `PlanningResult`. -/
structure PlanTask where
  description : String
  satellite : String
  dependencies : List String
  priority : Int
  deriving Repr

/-- `node_${index}`. -/
def nodeName (index : Nat) : String :=
  "node_" ++ toString index

/-- The `descToId` map: `descToId.set(task.description, nodeId)` in task
order, a later task with the same description overwriting an earlier one. -/
def descToId (tasks : List PlanTask) : String → Option String :=
  (tasks.enum).foldl
    (fun m p => fun desc => if desc = p.2.description then some (nodeName p.1) else m desc)
    (fun _ => none)

/-- The dependency list of task `t`: each description resolved through
`descToId`, unresolvable descriptions silently dropped. -/
def resolvedDeps (tasks : List PlanTask) (t : PlanTask) : List String :=
  t.dependencies.filterMap (descToId tasks)

/-- The dependents of node `nid`: for every task (in order), one entry per
dependency of that task resolving to `nid`. -/
def dependentsOf (tasks : List PlanTask) (nid : String) : List String :=
  (tasks.enum).foldl
    (fun acc p =>
      acc ++ (resolvedDeps tasks p.2).filterMap
        (fun d => if d = nid then some (nodeName p.1) else none))
    []

/-- `Shaka.buildDAG`: one `pending` node per task, dependency descriptions
resolved by exact lookup, then nodes without dependencies are collected as
roots and promoted to `ready` (nodes without dependents as leaves).
`taskId` is set to `''` (the source comment promises it "will be set when
tasks are created", which never happens). -/
def buildDAG (tasks : List PlanTask) : TaskDAG :=
  let nodes0 : List DAGNode := (tasks.enum).map (fun p =>
    { id := nodeName p.1
      taskId := ""
      satelliteId := p.2.satellite
      status := NodeStatus.pending
      dependencies := resolvedDeps tasks p.2
      dependents := dependentsOf tasks (nodeName p.1) })
  { nodes := nodes0.map (fun n =>
      if n.dependencies.isEmpty then { n with status := NodeStatus.ready } else n)
    rootNodes := (nodes0.filter (fun n => n.dependencies.isEmpty)).map (fun n => n.id)
    leafNodes := (nodes0.filter (fun n => n.dependents.isEmpty)).map (fun n => n.id) }

/-! ### Shaka.getReadyTasks / markTaskComplete / isDAGComplete -/

/-- One iteration of the `dag.nodes.forEach` in `getReadyTasks`: the node
object `n0` is the one captured by the iteration (earlier iterations only
mutate their own node), while dependency statuses are read from the live
map `d`. -/
def getReadyStep (acc : TaskDAG × List String) (n0 : DAGNode) : TaskDAG × List String :=
  if n0.status = NodeStatus.ready then
    (acc.1, acc.2 ++ [n0.id])
  else if n0.status = NodeStatus.pending then
    if allDepsComplete acc.1 n0.dependencies then
      (setStatus acc.1 n0.id NodeStatus.ready, acc.2 ++ [n0.id])
    else acc
  else acc

/-- `Shaka.getReadyTasks`: collects `ready` nodes and promotes `pending`
nodes whose dependencies are all `completed` (as a side effect on the DAG,
returned here as the first component). -/
def getReadyTasks (dag : TaskDAG) : TaskDAG × List String :=
  dag.nodes.foldl getReadyStep (dag, [])

/-- One iteration of the `node.dependents.forEach` in `markTaskComplete`. -/
def markDependentStep (d : TaskDAG) (depId : String) : TaskDAG :=
  match getNode d depId with
  | some depNode =>
      if depNode.status = NodeStatus.pending then
        if allDepsComplete d depNode.dependencies then
          setStatus d depId NodeStatus.ready
        else d
      else d
  | none => d

/-- `Shaka.markTaskComplete`: sets the node to `completed`/`failed`
according to `success` and, on success, promotes any `pending` dependent
whose dependencies are now all `completed`. -/
def markTaskComplete (dag : TaskDAG) (nodeId : String) (success : Bool) : TaskDAG :=
  match getNode dag nodeId with
  | none => dag
  | some node =>
      let d1 := setStatus dag nodeId
        (if success then NodeStatus.completed else NodeStatus.failed)
      if success then node.dependents.foldl markDependentStep d1 else d1

/-- `Shaka.isDAGComplete`: true iff every node is `completed` or `failed`. -/
def isDAGComplete (dag : TaskDAG) : Bool :=
  dag.nodes.all (fun n =>
    n.status = NodeStatus.completed || n.status = NodeStatus.failed)

/-! ### AgentMesh.executePlan -/

/-- The fields of a `SatelliteTask` consulted by `executePlan`'s task
lookup. -/
structure MeshTask where
  id : String
  description : String
  satelliteId : String
  deriving Repr

/-- `plan.tasks.find(t => t.id === node.taskId || t.description === nodeId)`. -/
def findTask (tasks : List MeshTask) (node : DAGNode) (nodeId : String) : Option MeshTask :=
  tasks.find? (fun t => t.id = node.taskId || t.description = nodeId)

/-- One dispatched node inside a batch of `executePlan`: looks up the task
(skipping the node entirely, with a `null` result, when the lookup fails),
marks the node `running`, runs the satellite (the oracle `exec` gives the
`result.success` flag) and applies `markTaskComplete`. -/
def execStep (exec : String → Bool) (tasks : List MeshTask) (d : TaskDAG)
    (nodeId : String) : TaskDAG × Option Bool :=
  match getNode d nodeId with
  | none => (d, none)
  | some node =>
      match findTask tasks node nodeId with
      | none => (d, none)
      | some _ =>
          let d1 := setStatus d nodeId NodeStatus.running
          let s := exec nodeId
          (markTaskComplete d1 nodeId s, some s)

/-- One ready batch of `executePlan`, applied sequentially; the non-`null`
results of the batch are appended to the collected results. -/
def execBatch (exec : String → Bool) (tasks : List MeshTask) (d : TaskDAG)
    (ready : List String) : TaskDAG × List Bool :=
  ready.foldl
    (fun acc nid =>
      let r := execStep exec tasks acc.1 nid
      (r.1, acc.2 ++ r.2.toList))
    (d, [])

/-- How an `executePlan` run left its `while` loop. -/
inductive ExitKind where
  | completed
  | deadlock
  | fuelOut
  deriving DecidableEq, Repr

/-- The `while (!isDAGComplete(dag))` loop of `AgentMesh.executePlan`,
made total with explicit fuel: `fuelOut` means the loop was still running
after `fuel` iterations (the source loop has no other exit, so a run that
is `fuelOut` for every fuel never terminates). -/
def executePlanLoop (exec : String → Bool) (tasks : List MeshTask) :
    Nat → TaskDAG → List Bool → TaskDAG × List Bool × ExitKind
  | 0, dag, results => (dag, results, ExitKind.fuelOut)
  | fuel + 1, dag, results =>
      if isDAGComplete dag then (dag, results, ExitKind.completed)
      else
        let r := getReadyTasks dag
        if r.2.isEmpty then (r.1, results, ExitKind.deadlock)
        else
          let b := execBatch exec tasks r.1 r.2
          executePlanLoop exec tasks fuel b.1 (results ++ b.2)


/-! ### Concrete DAGs for the scheduler claims -/

/-- A two-node cyclic DAG: each node lists the other as a dependency
(and hence as a dependent), both `pending` — the shape `buildDAG` would
produce for two tasks citing each other's description. -/
def cycleDag : TaskDAG :=
  { nodes :=
      [ { id := "node_0", taskId := "", satelliteId := "edison",
          status := NodeStatus.pending,
          dependencies := ["node_1"], dependents := ["node_1"] },
        { id := "node_1", taskId := "", satelliteId := "pythagoras",
          status := NodeStatus.pending,
          dependencies := ["node_0"], dependents := ["node_0"] } ]
    rootNodes := []
    leafNodes := [] }

/-- A single-task plan as `createExecutionPlan` actually produces it:
`buildDAG` leaves `taskId = ''` on the node, while the task list carries a
fresh UUID id and a natural-language description, so
`plan.tasks.find(t => t.id === node.taskId || t.description === nodeId)`
finds nothing. -/
def soloDag : TaskDAG :=
  { nodes :=
      [ { id := "node_0", taskId := "", satelliteId := "edison",
          status := NodeStatus.ready,
          dependencies := [], dependents := [] } ]
    rootNodes := ["node_0"]
    leafNodes := ["node_0"] }

/-- The task list matching `soloDag`. -/
def soloTasks : List MeshTask :=
  [ { id := "9b1deb4d-3b7d-4bad-9bdd-2b0d7b3dcb6d",
      description := "Summarize the README file",
      satelliteId := "edison" } ]


/-! ### Promotion-soundness infrastructure for the DAG claims

`Promo B d` says `d` arose from `B` by promoting some `pending` nodes to
`ready`, each promotion justified by `allDepsComplete` (evaluated on `B`,
whose `completed` set every such promotion preserves). -/

/-- Sound evolution of a DAG by dependency-justified `pending → ready`
promotions only. -/
def Promo (B d : TaskDAG) : Prop :=
  d.nodes.map (fun n => n.id) = B.nodes.map (fun n => n.id) ∧
  ∀ x : String, getNode d x = getNode B x ∨
    ∃ n, getNode B x = some n ∧ n.status = NodeStatus.pending ∧
      allDepsComplete B n.dependencies = true ∧
      getNode d x = some { n with status := NodeStatus.ready }

/-- A two-node chain whose root is already `completed`: `getReadyTasks`
should promote `node_1`. -/
def chainDoneDag : TaskDAG :=
  { nodes :=
      [ { id := "node_0", taskId := "", satelliteId := "pythagoras",
          status := NodeStatus.completed,
          dependencies := [], dependents := ["node_1"] },
        { id := "node_1", taskId := "", satelliteId := "edison",
          status := NodeStatus.pending,
          dependencies := ["node_0"], dependents := [] } ]
    rootNodes := ["node_0"]
    leafNodes := ["node_1"] }

/-- A two-node chain whose root is `running`: `markTaskComplete` on the
root should promote `node_1`. -/
def chainRunningDag : TaskDAG :=
  { nodes :=
      [ { id := "node_0", taskId := "", satelliteId := "pythagoras",
          status := NodeStatus.running,
          dependencies := [], dependents := ["node_1"] },
        { id := "node_1", taskId := "", satelliteId := "edison",
          status := NodeStatus.pending,
          dependencies := ["node_0"], dependents := [] } ]
    rootNodes := ["node_0"]
    leafNodes := ["node_1"] }


/-! ### Lilith (critic): calculateScore and the approval rule -/

/-- Issue severity: `critical | major | minor | info`. -/
inductive Severity where
  | critical
  | major
  | minor
  | info
  deriving DecidableEq, Repr

/-- A critique issue (fields relevant to scoring). -/
structure CritiqueIssue where
  issueType : String
  severity : Severity
  description : String
  deriving DecidableEq, Repr

/-- The `switch (issue.severity)` body of `Lilith.calculateScore`. -/
def applyPenalty (score : Int) (issue : CritiqueIssue) : Int :=
  match issue.severity with
  | Severity.critical => score - 25
  | Severity.major => score - 15
  | Severity.minor => score - 5
  | Severity.info => score - 1

/-- `Lilith.calculateScore`: starts at 100, deducts a fixed penalty per
issue, floors at 0 (`Math.max(0, score)`). -/
def calculateScore (issues : List CritiqueIssue) : Int :=
  max 0 (issues.foldl applyPenalty 100)

/-- The critique fields determined by the issue list (ids, recommendation
and the LLM/static passes that produce the issues are external). -/
structure Critique where
  issues : List CritiqueIssue
  score : Int
  approved : Bool
  deriving Repr

/-- The scoring/approval tail of `Lilith.critique`:
`approved: score >= 70 && !issues.some(i => i.severity === 'critical')`. -/
def critiqueOf (issues : List CritiqueIssue) : Critique :=
  let score := calculateScore issues
  { issues := issues
    score := score
    approved := decide (score ≥ 70) && !(issues.any (fun i => i.severity = Severity.critical)) }


/-! ### Atlas (executor): executeToolWithRetry -/

/-- JS `String.prototype.includes`: substring containment. -/
def includes (s pat : String) : Bool :=
  decide (pat.data <:+: s.data)

/-- `Atlas.analyzeErrorForRetry`: no retry once `attempt >= maxRetries`;
5xx, timeout, connection and rate-limit errors retry; 4xx (400/401/403)
do not; anything unclassified defaults to retry. -/
def analyzeErrorForRetry (error : String) (attempt maxRetries : Nat) : Bool :=
  if attempt ≥ maxRetries then false
  else if includes error "500" || includes error "502" || includes error "503" then true
  else if includes error "timeout" || includes error "ETIMEDOUT" then true
  else if includes error "ECONNREFUSED" || includes error "ENOTFOUND" then true
  else if includes error "429" || includes error "rate limit" then true
  else if includes error "400" || includes error "401" || includes error "403" then false
  else true

/-- Outcome of one non-throwing `callTool` invocation. -/
structure ToolCallOk where
  success : Bool
  error : Option String
  deriving Repr

/-- Result fields of `executeToolWithRetry` relevant to the retry policy,
with the backoff waits collected in `delays`. -/
structure ToolRetryResult where
  success : Bool
  attempts : Nat
  delays : List Nat
  error : Option String
  deriving Repr

/-- The `while (attempt <= request.maxRetries)` loop of
`Atlas.executeToolWithRetry`. `call a` is the outcome of the `a`-th
`callTool` invocation (`Except.error` = the attempt threw); the
LLM-assisted parameter repair between retries only mutates the arguments
fed to later attempts, which the attempt-indexed oracle already absorbs. -/
def retryLoop (call : Nat → Except String ToolCallOk) (maxRetries : Nat)
    (attempt : Nat) (lastError : Option String) (delays : List Nat) : ToolRetryResult :=
  if attempt ≤ maxRetries then
    let a := attempt + 1
    match call a with
    | Except.ok r =>
        { success := r.success, attempts := a, delays := delays, error := r.error }
    | Except.error e =>
        if analyzeErrorForRetry e a maxRetries then
          retryLoop call maxRetries a (some e)
            (delays ++ [min (1000 * 2 ^ (a - 1)) 10000])
        else
          { success := false, attempts := a, delays := delays, error := some e }
  else
    { success := false, attempts := attempt, delays := delays,
      error := some (lastError.getD "Unknown error") }
termination_by maxRetries + 1 - attempt
decreasing_by simp_wf; omega

/-- `Atlas.executeToolWithRetry` (retry-policy view). -/
def executeToolWithRetry (call : Nat → Except String ToolCallOk)
    (maxRetries : Nat) : ToolRetryResult :=
  retryLoop call maxRetries 0 none []

/-- An external tool that throws `503` on every attempt. -/
def alwaysServerError : Nat → Except String ToolCallOk :=
  fun _ => Except.error "HTTP 503 Service Unavailable"


/-! ### York (resource manager): context eviction -/

/-- One conversation turn (fields relevant to eviction). -/
structure ConversationTurn where
  role : String
  content : String
  tokenCount : Nat
  deriving Repr

/-- A stored context slice ("Brain-Brain Cut" output). -/
structure ContextSlice where
  summary : String
  originalTokenCount : Nat
  compressedTokenCount : Nat
  embedding : List ℚ
  messages : List (String × String)
  deriving Repr

/-- York's mutable state: live history, running token counter and ceiling
(`currentMetrics.contextTokens` / `.maxContextTokens`), stored slices. -/
structure YorkState where
  conversationHistory : List ConversationTurn
  contextTokens : ℤ
  maxContextTokens : ℤ
  contextSlices : List ContextSlice
  deriving Repr

/-- `MAX_CONTEXT_TOKENS = 4096`. -/
def MAX_CONTEXT_TOKENS : ℤ := 4096

/-- `EVICTION_THRESHOLD = 0.8`. -/
def EVICTION_THRESHOLD : ℚ := 0.8

/-- `TARGET_AFTER_EVICTION = 0.5`. -/
def TARGET_AFTER_EVICTION : ℚ := 0.5

/-- `York.estimateTokens`: `Math.ceil(text.length / 4)` — an approximation
by design. -/
def estimateTokens (text : String) : Nat :=
  (text.length + 3) / 4

/-- The decision returned by `evaluateEviction`. -/
structure EvictionDecision where
  shouldEvict : Bool
  tokensToFree : ℤ
  messagesToSummarize : Nat
  priority : String
  deriving Repr

/-- The message-counting loop of `evaluateEviction`: walks the oldest
turns first, accumulating token counts, and stops as soon as the
accumulated count reaches `tokensToFree`. -/
def evictWalk (tokensToFree : ℤ) : List ConversationTurn → ℤ → Nat → Nat
  | [], _, messageCount => messageCount
  | turn :: rest, tokenCount, messageCount =>
      let tokenCount' := tokenCount + turn.tokenCount
      let messageCount' := messageCount + 1
      if tokenCount' ≥ tokensToFree then messageCount'
      else evictWalk tokensToFree rest tokenCount' messageCount'

/-- `York.evaluateEviction`: `usage = tokens / maxTokens`; below the 0.8
threshold no eviction; otherwise frees down to the 50% target, counting
how many oldest turns that takes, with urgency from usage. -/
def evaluateEviction (st : YorkState) : EvictionDecision :=
  let usage : ℚ := (st.contextTokens : ℚ) / (st.maxContextTokens : ℚ)
  if usage < EVICTION_THRESHOLD then
    { shouldEvict := false, tokensToFree := 0, messagesToSummarize := 0, priority := "low" }
  else
    let tokensToFree : ℤ :=
      ⌊(st.contextTokens : ℚ) - (st.maxContextTokens : ℚ) * TARGET_AFTER_EVICTION⌋
    let messageCount := evictWalk tokensToFree st.conversationHistory 0 0
    let priority : String :=
      if usage ≥ 0.95 then "critical" else if usage ≥ 0.9 then "high" else "medium"
    { shouldEvict := true, tokensToFree := tokensToFree,
      messagesToSummarize := messageCount, priority := priority }

/-- `York.performContextEviction`: re-evaluates; if not due returns the
no-op message; otherwise summarizes the oldest N turns (the summary text
and its embedding come from the external generator/embedder, passed as
oracles), stores one ContextSlice, removes exactly those N turns and
decrements the token counter by their exact original token sum. The
human-readable completion message's numeric suffix is elided. -/
def performContextEviction (st : YorkState) (summary : String)
    (embedding : List ℚ) : String × YorkState :=
  let decision := evaluateEviction st
  if decision.shouldEvict = false then
    ("No eviction needed - context usage is within limits.", st)
  else
    let messagesToEvict := st.conversationHistory.take decision.messagesToSummarize
    if messagesToEvict.isEmpty then
      ("No messages to evict.", st)
    else
      let originalTokenCount := (messagesToEvict.map (fun m => m.tokenCount)).sum
      let slice : ContextSlice :=
        { summary := summary
          originalTokenCount := originalTokenCount
          compressedTokenCount := estimateTokens summary
          embedding := embedding
          messages := messagesToEvict.map (fun m => (m.role, m.content)) }
      let st1 : YorkState :=
        { st with
          contextSlices := st.contextSlices ++ [slice]
          conversationHistory := st.conversationHistory.drop decision.messagesToSummarize
          contextTokens := st.contextTokens - originalTokenCount }
      ("Brain-Brain Cut complete: Evicted " ++
        toString decision.messagesToSummarize ++ " messages", st1)

/-- `York.addConversationTurn` (synchronous part: push + counter update;
the automatic eviction trigger is a fire-and-forget async call modelled
as a separate `performContextEviction` invocation). -/
def addConversationTurn (st : YorkState) (turn : ConversationTurn) : YorkState :=
  { st with
    conversationHistory := st.conversationHistory ++ [turn]
    contextTokens := st.contextTokens + turn.tokenCount }


/-! ### PunkRecords.chunkText -/

/-- Chunking configuration; `separator` defaults to `'\n\n'`. JS strings
are modelled as `List Char`. -/
structure ChunkConfig where
  chunkSize : Nat
  chunkOverlap : Nat
  separator : List Char := ['\n', '\n']
  deriving Repr

/-- JS `String.prototype.split(sep)` for a non-empty separator: leftmost
non-overlapping matches. The fuel argument (instantiated to more steps
than the loop can take, one character minimum per step) only makes the
recursion structural; the fuel-exhaustion arm is unreachable from
`splitSep`. -/
def splitSepGo (sep : List Char) : Nat → List Char → List Char → List (List Char)
  | _, acc, [] => [acc.reverse]
  | 0, acc, rest => [acc.reverse ++ rest]
  | fuel + 1, acc, c :: rest =>
      if sep ≠ [] ∧ sep.isPrefixOf (c :: rest) then
        acc.reverse :: splitSepGo sep fuel [] ((c :: rest).drop sep.length)
      else
        splitSepGo sep fuel (c :: acc) rest

/-- `text.split(separator)`. -/
def splitSep (sep text : List Char) : List (List Char) :=
  splitSepGo sep (text.length + 1) [] text

/-- JS `s.slice(-k)` for `k > 0`: the last `k` characters. -/
def sliceNeg (l : List Char) (k : Nat) : List Char :=
  l.drop (l.length - k)

/-- The word-level fallback loop body of `chunkText`:
`(currentChunk + ' ' + word).length <= chunkSize` extends the current
chunk, otherwise the current chunk (if non-empty) is pushed and the word
starts a new chunk — an oversized word is *not* split further. -/
def chunkWordStep (chunkSize : Nat) (acc : List (List Char) × List Char)
    (word : List Char) : List (List Char) × List Char :=
  let chunks := acc.1
  let currentChunk := acc.2
  if (currentChunk ++ [' '] ++ word).length ≤ chunkSize then
    (chunks, currentChunk ++ (if currentChunk.isEmpty then [] else [' ']) ++ word)
  else
    if currentChunk.isEmpty then (chunks, word)
    else (chunks ++ [currentChunk], word)

/-- The per-segment loop body of `chunkText`. -/
def chunkSegStep (cfg : ChunkConfig) (acc : List (List Char) × List Char)
    (segment : List Char) : List (List Char) × List Char :=
  let chunks := acc.1
  let currentChunk := acc.2
  if (currentChunk ++ segment).length ≤ cfg.chunkSize then
    (chunks, currentChunk ++ (if currentChunk.isEmpty then [] else cfg.separator) ++ segment)
  else
    let chunks1 := if currentChunk.isEmpty then chunks else chunks ++ [currentChunk]
    if segment.length > cfg.chunkSize then
      (splitSep [' '] segment).foldl (chunkWordStep cfg.chunkSize) (chunks1, [])
    else
      (chunks1, segment)

/-- `PunkRecords.chunkText`: splits on the separator, packs segments into
chunks of at most `chunkSize` (falling back to word-level splitting for
oversized segments), then — when `chunkOverlap > 0` and there are at
least two chunks — prefixes every chunk after the first with the trailing
`chunkOverlap` characters of its (pre-overlap) predecessor plus a space. -/
def chunkText (text : List Char) (cfg : ChunkConfig) : List (List Char) :=
  let segments := splitSep cfg.separator text
  let r := segments.foldl (chunkSegStep cfg) ([], [])
  let chunks := if r.2.isEmpty then r.1 else r.1 ++ [r.2]
  if cfg.chunkOverlap > 0 ∧ chunks.length > 1 then
    chunks.enum.map (fun p =>
      match p.1, chunks.get? (p.1 - 1) with
      | 0, _ => p.2
      | _ + 1, some prevChunk => sliceNeg prevChunk cfg.chunkOverlap ++ [' '] ++ p.2
      | _ + 1, none => p.2)
  else chunks

/-- 1000 `'a'` characters. -/
def aThousand : List Char := List.replicate 1000 'a'


/-! ### PunkRecords: documents, the Voy index, addDocument, semanticSearch -/

/-- One entry of the embeddings list a Voy index is built from. -/
structure VoyEmbeddedResource where
  id : String
  title : String
  url : String
  embeddings : List ℚ
  deriving DecidableEq, Repr

/-- Document metadata (fields used by `addDocument`). -/
structure DocumentMetadata where
  source : String
  docType : String
  title : Option String
  deriving Repr

/-- A stored document. -/
structure PunkDocument where
  id : String
  content : String
  embedding : Option (List ℚ)
  createdAt : ℤ
  updatedAt : ℤ
  deriving Repr

/-- PunkRecords state: the IndexedDB `documents` store and the embeddings
list the in-memory Voy index was last (re)built from (the FlexSearch
index is external and not consulted by these claims). -/
structure PunkState where
  documents : List PunkDocument
  voyIndex : List VoyEmbeddedResource
  deriving Repr

/-- `PunkRecords.getAllEmbeddings`: the source literally returns `[]`
("workaround since Voy doesn't expose its internal embeddings"). -/
def getAllEmbeddings (_st : PunkState) : List VoyEmbeddedResource :=
  []

/-- `PunkRecords.addDocument`: builds the document (embedding generation
is external — `embedResult = none` models the logged, non-fatal failure),
stores it, and if embedded rebuilds the Voy index from
`getAllEmbeddings()` plus the new entry. -/
def addDocument (st : PunkState) (content : String) (metadata : DocumentMetadata)
    (newId : String) (now : ℤ) (embedResult : Option (List ℚ)) :
    PunkState × PunkDocument :=
  let doc : PunkDocument :=
    { id := newId, content := content, embedding := embedResult,
      createdAt := now, updatedAt := now }
  let st1 := { st with documents := st.documents ++ [doc] }
  match embedResult with
  | some emb =>
      let currentEmbeddings := getAllEmbeddings st1
      let currentEmbeddings1 := currentEmbeddings ++
        [{ id := doc.id, title := metadata.title.getD doc.id,
           url := metadata.source, embeddings := emb }]
      ({ st1 with voyIndex := currentEmbeddings1 }, doc)
  | none => (st1, doc)

/-- How a search result was matched. -/
inductive MatchType where
  | semantic
  | keyword
  | hybrid
  deriving DecidableEq, Repr

/-- A search result; the document is represented by its id (results are
merged by `document.id`). -/
structure SearchResult where
  docId : String
  score : ℚ
  matchType : MatchType
  deriving DecidableEq, Repr

/-- A Voy nearest-neighbor hit. -/
structure Neighbor where
  id : String
  distance : ℚ
  deriving DecidableEq, Repr

/-- The per-neighbor body of `semanticSearch`: fetch the document by id,
skip missing ones, score as `1 − distance`. -/
def semanticStep (st : PunkState) (acc : List SearchResult) (nb : Neighbor) :
    List SearchResult :=
  match st.documents.find? (fun d => d.id = nb.id) with
  | some doc =>
      acc ++ [{ docId := doc.id, score := 1 - nb.distance,
                matchType := MatchType.semantic }]
  | none => acc

/-- `PunkRecords.semanticSearch`: query embedding and the Voy search are
external (`voySearch` is the oracle `this.voyIndex!.search(·, limit)`);
any embedding/index failure returns `[]`, which the oracle also covers. -/
def semanticSearch (st : PunkState)
    (voySearch : List VoyEmbeddedResource → Nat → List Neighbor)
    (limit : Nat) : List SearchResult :=
  (voySearch st.voyIndex limit).foldl (semanticStep st) []

/-- The empty PunkRecords state (fresh indices). -/
def punkEmpty : PunkState :=
  { documents := [], voyIndex := [] }

/-- Concrete metadata for witnesses. -/
def punkMeta : DocumentMetadata :=
  { source := "user", docType := "text", title := none }

/-- A Voy oracle returning every index entry at distance 0. -/
def voyAll : List VoyEmbeddedResource → Nat → List Neighbor :=
  fun idx _ => idx.map (fun e => { id := e.id, distance := 0 })


/-! ### PunkRecords.search: hybrid rank fusion -/

/-- `searchMode`. -/
inductive SearchMode where
  | semantic
  | keyword
  | hybrid
  deriving DecidableEq, Repr

/-- `SearchOptions` with the source's defaults. -/
structure SearchOptions where
  limit : Nat := 10
  threshold : ℚ := 0
  searchMode : SearchMode := SearchMode.hybrid
  semanticWeight : ℚ := 0.7
  deriving Repr

/-- JS `Map.prototype.set` on an insertion-ordered association list:
update in place if the key exists, else append. -/
def mapSet (m : List (String × SearchResult)) (k : String) (v : SearchResult) :
    List (String × SearchResult) :=
  if m.any (fun p => p.1 = k) then
    m.map (fun p => if p.1 = k then (k, v) else p)
  else m ++ [(k, v)]

/-- The semantic loop body of hybrid `search`:
`combinedMap.set(id, {...result, score: score×semanticWeight, matchType:'hybrid'})`. -/
def addSemanticStep (semanticWeight : ℚ) (m : List (String × SearchResult))
    (r : SearchResult) : List (String × SearchResult) :=
  mapSet m r.docId
    { docId := r.docId, score := r.score * semanticWeight, matchType := MatchType.hybrid }

/-- The keyword loop body of hybrid `search`: an id already present gets
`existing.score += score×keywordWeight` in place, a new id is appended
with its single weighted score. -/
def addKeywordStep (keywordWeight : ℚ) (m : List (String × SearchResult))
    (r : SearchResult) : List (String × SearchResult) :=
  match m.find? (fun p => p.1 = r.docId) with
  | some p =>
      m.map (fun q =>
        if q.1 = r.docId then
          (q.1, { p.2 with score := p.2.score + r.score * keywordWeight })
        else q)
  | none =>
      m ++ [(r.docId,
        { docId := r.docId, score := r.score * keywordWeight,
          matchType := MatchType.hybrid })]

/-- The combine-and-rerank core of hybrid `search`: semantic results
enter the map first (weighted), then keyword results are merged in, and
`Array.from(combinedMap.values())` reads the values back in insertion
order. -/
def hybridMerge (semanticResults keywordResults : List SearchResult)
    (semanticWeight : ℚ) : List SearchResult :=
  let m1 := semanticResults.foldl (addSemanticStep semanticWeight) []
  let keywordWeight := 1 - semanticWeight
  let m2 := keywordResults.foldl (addKeywordStep keywordWeight) m1
  m2.map (fun p => p.2)

/-- The two sub-searches, abstracting the store state, indices and the
external embedder behind `PunkRecords.semanticSearch`/`keywordSearch`. -/
structure SearchBackend where
  semanticSearch : String → Nat → List SearchResult
  keywordSearch : String → Nat → List SearchResult

/-- `PunkRecords.search`: `semantic`/`keyword` modes delegate; `hybrid`
(the default) runs both at `2×limit`, merges by document id, filters by
`score >= threshold`, sorts by score descending (JS `sort` is stable) and
truncates to `limit`. -/
def search (be : SearchBackend) (query : String) (opts : SearchOptions) :
    List SearchResult :=
  match opts.searchMode with
  | SearchMode.semantic => be.semanticSearch query opts.limit
  | SearchMode.keyword => be.keywordSearch query opts.limit
  | SearchMode.hybrid =>
      let semanticResults := be.semanticSearch query (opts.limit * 2)
      let keywordResults := be.keywordSearch query (opts.limit * 2)
      let combined := hybridMerge semanticResults keywordResults opts.semanticWeight
      ((combined.filter (fun r => r.score ≥ opts.threshold)).mergeSort
        (fun a b => decide (b.score ≤ a.score))).take opts.limit

/-- The merged-map entry contributed by a semantic result `r`, given the
keyword results already folded in. -/
def semEntry (w : ℚ) (done : List SearchResult) (r : SearchResult) :
    String × SearchResult :=
  match done.find? (fun t => t.docId = r.docId) with
  | some t =>
      (r.docId, { docId := r.docId, score := r.score * w + t.score * (1 - w),
                  matchType := MatchType.hybrid })
  | none =>
      (r.docId, { docId := r.docId, score := r.score * w,
                  matchType := MatchType.hybrid })

/-- The merged-map entry of a keyword-only result. -/
def kwOnlyEntry (w : ℚ) (t : SearchResult) : String × SearchResult :=
  (t.docId, { docId := t.docId, score := t.score * (1 - w),
              matchType := MatchType.hybrid })

/-- Closed form of the combined map after folding in a prefix `done` of
the keyword results. -/
def mergedAssoc (w : ℚ) (sem done : List SearchResult) :
    List (String × SearchResult) :=
  sem.map (semEntry w done) ++
  (done.filter (fun t => !(sem.any (fun r => r.docId = t.docId)))).map (kwOnlyEntry w)


/-! ### AgentMesh.processRequest -/

/-- The fields of the planner's `SatelliteResult` consulted by
`processRequest`. -/
structure SatResult where
  success : Bool
  output : String
  error : String
  deriving Repr

/-- The mesh state fields driven by `processRequest`. -/
structure MeshState where
  isProcessing : Bool
  york : YorkState
  activePlan : Option (List MeshTask × TaskDAG)

/-- The external outcomes of one `processRequest` run: the planner call,
`JSON.parse` of its output (throwing on bad JSON), the critic and the
synthesizer (each may reject), and the per-node satellite outcomes. -/
structure MeshOracle where
  planResult : SatResult
  parsePlan : String → Except String (List MeshTask × TaskDAG)
  critique : Except String (Bool × Int)
  synthesize : Except String String
  exec : String → Bool

/-- `AgentMesh.processRequest`: rejects re-entrant calls while
`isProcessing`, otherwise sets the flag and runs
track-turn → plan → parse → executePlan → critique → synthesize →
track-turn, clearing `isProcessing` and `activePlan` in the `finally` on
every completion path (normal return or throw). `none` models the run
that never completes because `executePlan` loops forever (out of fuel) —
on such a run there is no completion path at all. -/
def processRequest (st : MeshState) (o : MeshOracle) (userInput : String)
    (fuel : Nat) : Option (Except String String × MeshState) :=
  if st.isProcessing then
    some (Except.error "Already processing a request", st)
  else
    let st1 : MeshState := { st with isProcessing := true }
    let turn1 : ConversationTurn :=
      { role := "user", content := userInput,
        tokenCount := (userInput.length + 3) / 4 }
    let stY : MeshState := { st1 with york := addConversationTurn st1.york turn1 }
    if o.planResult.success = false then
      some (Except.error ("Planning failed: " ++ o.planResult.error),
        { stY with isProcessing := false, activePlan := none })
    else
      match o.parsePlan o.planResult.output with
      | Except.error e =>
          some (Except.error e, { stY with isProcessing := false, activePlan := none })
      | Except.ok plan =>
          let stP : MeshState := { stY with activePlan := some plan }
          match executePlanLoop o.exec plan.1 fuel plan.2 [] with
          | (_, _, ExitKind.fuelOut) => none
          | (_, _, _) =>
              match o.critique with
              | Except.error e =>
                  some (Except.error e,
                    { stP with isProcessing := false, activePlan := none })
              | Except.ok (approved, score) =>
                  match o.synthesize with
                  | Except.error e =>
                      some (Except.error e,
                        { stP with isProcessing := false, activePlan := none })
                  | Except.ok response =>
                      let response1 := if approved then response
                        else response ++
                          "\n\n⚠️ Quality Note: Some issues were detected (score: " ++
                          toString score ++ "/100)"
                      let turn2 : ConversationTurn :=
                        { role := "assistant", content := response1,
                          tokenCount := (response1.length + 3) / 4 }
                      let stA : MeshState := { stP with
                        york := addConversationTurn stP.york turn2 }
                      some (Except.ok response1,
                        { stA with isProcessing := false, activePlan := none })

/-- The empty York state. -/
def yorkEmpty : YorkState :=
  { conversationHistory := [], contextTokens := 0,
    maxContextTokens := MAX_CONTEXT_TOKENS, contextSlices := [] }

/-- An idle mesh state. -/
def meshIdle : MeshState :=
  { isProcessing := false, york := yorkEmpty, activePlan := none }

/-- A busy mesh state. -/
def meshBusy : MeshState :=
  { isProcessing := true, york := yorkEmpty, activePlan := none }

/-- An oracle whose planner call fails. -/
def planFailOracle : MeshOracle :=
  { planResult := { success := false, output := "", error := "bad JSON" }
    parsePlan := fun _ => Except.error "unreachable"
    critique := Except.ok (true, 100)
    synthesize := Except.ok "done"
    exec := fun _ => true }


/-! ## Theorems -/

theorem getNode_id {dag : TaskDAG} {x : String} {n : DAGNode}
    (h : getNode dag x = some n) : n.id = x := by
  have := List.find?_some h
  simpa using this

theorem idsOf_setStatus (d : TaskDAG) (i : String) (s : NodeStatus) :
    (setStatus d i s).nodes.map (fun n => n.id) = d.nodes.map (fun n => n.id) := by
  simp only [setStatus, List.map_map]
  refine List.map_congr_left (fun n _ => ?_)
  by_cases h : n.id = i <;> simp [h]

theorem getNode_setStatus (d : TaskDAG) (i : String) (s : NodeStatus) (x : String) :
    getNode (setStatus d i s) x =
      (getNode d x).map (fun n => if n.id = i then { n with status := s } else n) := by
  unfold getNode setStatus
  rw [List.find?_map]
  have hpred : ((fun n : DAGNode => decide (n.id = x)) ∘
      (fun n => if n.id = i then { n with status := s } else n)) =
      (fun n : DAGNode => decide (n.id = x)) := by
    funext n
    by_cases h : n.id = i <;> simp [h]
  rw [hpred]

theorem getNode_setStatus_ne {d : TaskDAG} {i x : String} (s : NodeStatus)
    (hx : x ≠ i) : getNode (setStatus d i s) x = getNode d x := by
  rw [getNode_setStatus]
  cases hg : getNode d x with
  | none => rfl
  | some m =>
      have hid : m.id = x := getNode_id hg
      simp [hid, hx]

theorem promo_refl (B : TaskDAG) : Promo B B :=
  ⟨rfl, fun _ => Or.inl rfl⟩

theorem promo_isDepCompleted {B d : TaskDAG} (h : Promo B d) (x : String) :
    isDepCompleted d x = isDepCompleted B x := by
  rcases h.2 x with heq | ⟨n, hB, hpend, _, hd⟩
  · simp [isDepCompleted, heq]
  · simp [isDepCompleted, hB, hd, hpend]

theorem promo_allDepsComplete {B d : TaskDAG} (h : Promo B d) (deps : List String) :
    allDepsComplete d deps = allDepsComplete B deps := by
  induction deps with
  | nil => rfl
  | cons a l ih =>
      simp [allDepsComplete, List.all_cons, promo_isDepCompleted h a,
        allDepsComplete] at ih ⊢
      rw [ih]

theorem promo_setStatus_ready {B d : TaskDAG} {i : String} {n : DAGNode}
    (h : Promo B d) (hn : getNode d i = some n)
    (hp : n.status = NodeStatus.pending)
    (hd : allDepsComplete d n.dependencies = true) :
    Promo B (setStatus d i NodeStatus.ready) := by
  refine ⟨by rw [idsOf_setStatus]; exact h.1, fun x => ?_⟩
  rw [getNode_setStatus]
  by_cases hx : x = i
  · subst hx
    rcases h.2 x with heq | ⟨m, hBm, hmp, hmd, hdm⟩
    · right
      refine ⟨n, heq ▸ hn, hp, ?_, ?_⟩
      · rw [← promo_allDepsComplete h]; exact hd
      · rw [hn]
        simp [getNode_id hn]
    · exfalso
      rw [hn] at hdm
      have : n.status = NodeStatus.ready := by
        have := Option.some.inj hdm
        rw [this]
      rw [hp] at this
      exact NodeStatus.noConfusion this
  · rcases h.2 x with heq | ⟨m, hBm, hmp, hmd, hdm⟩
    · left
      rw [← heq]
      cases hg : getNode d x with
      | none => rfl
      | some m =>
          have hid : m.id = x := getNode_id hg
          simp [hid, hx]
    · right
      refine ⟨m, hBm, hmp, hmd, ?_⟩
      rw [hdm]
      have hid : m.id = x := getNode_id hBm
      simp [hid, hx]

theorem find?_self_of_nodup :
    ∀ {l : List DAGNode}, (l.map (fun n => n.id)).Nodup →
      ∀ n ∈ l, l.find? (fun m => m.id = n.id) = some n := by
  intro l
  induction l with
  | nil => intro _ n hn; cases hn
  | cons h t ih =>
      intro hnd n hn
      rcases List.mem_cons.mp hn with rfl | hmem
      · simp
      · have hne : h.id ≠ n.id := by
          intro hcontra
          have : n.id ∈ t.map (fun m => m.id) := List.mem_map_of_mem _ hmem
          rw [← hcontra] at this
          exact (List.nodup_cons.mp hnd).1 this
        rw [List.find?_cons_of_neg _ (by simpa using hne)]
        exact ih (List.nodup_cons.mp hnd).2 n hmem

theorem getReadyTasks_foldl_promo {B : TaskDAG} :
    ∀ (l : List DAGNode) (d : TaskDAG) (ready : List String),
      Promo B d →
      (∀ n ∈ l, getNode d n.id = some n) →
      l.Pairwise (fun a b => a.id ≠ b.id) →
      Promo B (l.foldl getReadyStep (d, ready)).1 := by
  intro l
  induction l with
  | nil => intro d ready hP _ _; exact hP
  | cons h t ih =>
      intro d ready hP hmem hpw
      have hh : getNode d h.id = some h := hmem h (List.mem_cons_self h t)
      have hpw' := List.pairwise_cons.mp hpw
      rw [List.foldl_cons]
      unfold getReadyStep
      by_cases hr : h.status = NodeStatus.ready
      · simp only [hr, if_pos rfl]
        exact ih d (ready ++ [h.id]) hP (fun n hn => hmem n (List.mem_cons_of_mem h hn)) hpw'.2
      · by_cases hpd : h.status = NodeStatus.pending
        · by_cases hac : allDepsComplete d h.dependencies = true
          · simp only [hr, if_neg, hpd, if_pos rfl, hac, if_pos rfl]
            refine ih _ (ready ++ [h.id]) (promo_setStatus_ready hP hh hpd hac)
              (fun n hn => ?_) hpw'.2
            rw [getNode_setStatus_ne _ (fun hcontra => hpw'.1 n hn hcontra.symm)]
            exact hmem n (List.mem_cons_of_mem h hn)
          · simp only [hr, if_neg, hpd, if_pos rfl, hac, if_neg]
            exact ih d ready hP (fun n hn => hmem n (List.mem_cons_of_mem h hn)) hpw'.2
        · simp only [hr, if_neg, hpd, if_neg]
          exact ih d ready hP (fun n hn => hmem n (List.mem_cons_of_mem h hn)) hpw'.2

/-- `getReadyTasks` only evolves the DAG by dependency-justified
`pending → ready` promotions (on DAGs with `Map`-representable, i.e.
duplicate-free, node ids). -/
theorem getReadyTasks_promo (dag : TaskDAG)
    (hnd : (dag.nodes.map (fun n => n.id)).Nodup) :
    Promo dag (getReadyTasks dag).1 := by
  refine getReadyTasks_foldl_promo dag.nodes dag [] (promo_refl dag)
    (fun n hn => find?_self_of_nodup hnd n hn) ?_
  exact (List.pairwise_map.mp hnd)

theorem markDependents_promo (d0 : TaskDAG) :
    ∀ (l : List String) (d : TaskDAG), Promo d0 d →
      Promo d0 (l.foldl markDependentStep d) := by
  intro l
  induction l with
  | nil => intro d hP; exact hP
  | cons depId t ih =>
      intro d hP
      rw [List.foldl_cons]
      unfold markDependentStep
      cases hg : getNode d depId with
      | none => exact ih d hP
      | some depNode =>
          by_cases hpd : depNode.status = NodeStatus.pending
          · by_cases hac : allDepsComplete d depNode.dependencies = true
            · simp only [hpd, if_pos rfl, hac, if_pos rfl]
              exact ih _ (promo_setStatus_ready hP hg hpd hac)
            · simp only [hpd, if_pos rfl, hac, if_neg]
              exact ih d hP
          · simp only [hpd, if_neg]
            exact ih d hP

/-- **C5.** For the cyclic DAG (`node_0` and `node_1` each depending on
the other, both `pending`): `getReadyTasks` returns the empty ready set
and leaves the DAG untouched, `isDAGComplete` is `false`, and the
`executePlan` loop exits with the deadlock escape hatch on its very first
iteration — for every fuel bound, satellite oracle and task list — rather
than looping forever. -/
theorem scheduler_cycle_deadlocks :
    getReadyTasks cycleDag = (cycleDag, []) ∧
    isDAGComplete cycleDag = false ∧
    ∀ (exec : String → Bool) (tasks : List MeshTask) (fuel : Nat),
      executePlanLoop exec tasks (fuel + 1) cycleDag [] =
        (cycleDag, [], ExitKind.deadlock) := by
  refine ⟨rfl, rfl, fun exec tasks fuel => rfl⟩

/-- **C1.** The `executePlan` loop does *not* terminate on real plans: with
the one-node DAG `soloDag` (as produced by `buildDAG`, `taskId = ''`) and
its actual task list `soloTasks`, the task lookup fails on every iteration,
the ready node `node_0` is never marked complete, the ready set never
becomes empty, and the loop runs out of any fuel bound with the DAG and
result list unchanged — contradicting the specified
"repeats until the DAG is complete or a deadlock is detected" exit
behaviour. -/
theorem executePlan_nonterminating_on_real_plan :
    isDAGComplete soloDag = false ∧
    (getReadyTasks soloDag).2 = ["node_0"] ∧
    findTask soloTasks
      { id := "node_0", taskId := "", satelliteId := "edison",
        status := NodeStatus.ready, dependencies := [], dependents := [] }
      "node_0" = none ∧
    ∀ (exec : String → Bool) (fuel : Nat),
      executePlanLoop exec soloTasks fuel soloDag [] =
        (soloDag, [], ExitKind.fuelOut) := by
  refine ⟨rfl, rfl, rfl, fun exec fuel => ?_⟩
  induction fuel with
  | zero => rfl
  | succ n ih => exact ih


/-- **C2.** Dependency discipline of the scheduler state machine, exactly
as the claim decomposes it: (1) at construction (`buildDAG`) a node starts
`ready` iff its dependency list is empty (and every node starts `ready` or
`pending`); (2) `getReadyTasks` moves a `pending` node to `ready` only
when all of its dependencies are `completed`; (3) `markTaskComplete` moves
a `pending` node to `ready` only when all of its dependencies are
`completed` (in the updated DAG); (4) `isDAGComplete` is true iff every
node is `completed` or `failed`. -/
theorem dispatch_requires_completed_dependencies :
    (∀ (tasks : List PlanTask), ∀ n ∈ (buildDAG tasks).nodes,
      (n.status = NodeStatus.ready ↔ n.dependencies = []) ∧
      (n.status = NodeStatus.ready ∨ n.status = NodeStatus.pending)) ∧
    (∀ (dag : TaskDAG), (dag.nodes.map (fun n => n.id)).Nodup →
      ∀ (x : String) (n : DAGNode), getNode dag x = some n →
        n.status = NodeStatus.pending →
        statusById (getReadyTasks dag).1 x = some NodeStatus.ready →
        allDepsComplete dag n.dependencies = true) ∧
    (∀ (dag : TaskDAG) (r : String) (s : Bool) (x : String) (n : DAGNode),
      getNode dag x = some n → n.status = NodeStatus.pending →
      statusById (markTaskComplete dag r s) x = some NodeStatus.ready →
      allDepsComplete (markTaskComplete dag r s) n.dependencies = true) ∧
    (∀ (dag : TaskDAG), isDAGComplete dag = true ↔
      ∀ n ∈ dag.nodes,
        n.status = NodeStatus.completed ∨ n.status = NodeStatus.failed) := by
  refine ⟨?_, ?_, ?_, ?_⟩
  · intro tasks n hn
    simp only [buildDAG, List.mem_map] at hn
    obtain ⟨n0, hn0, rfl⟩ := hn
    obtain ⟨p, _, rfl⟩ := hn0
    by_cases he : resolvedDeps tasks p.2 = []
    · simp [he]
    · simp [List.isEmpty_eq_true, he]
  · intro dag hnd x n hx hpend hready
    have hP := getReadyTasks_promo dag hnd
    rcases hP.2 x with heq | ⟨m, hBm, _, hmd, _⟩
    · rw [statusById, heq, hx] at hready
      simp [hpend] at hready
    · have hmn : m = n := Option.some.inj (hBm.symm.trans hx)
      rw [hmn] at hmd
      exact hmd
  · intro dag r s x n hx hpend hready
    cases hgr : getNode dag r with
    | none =>
        rw [markTaskComplete, hgr] at hready
        rw [statusById, hx] at hready
        simp [hpend] at hready
    | some node =>
        cases s with
        | false =>
            have hres : markTaskComplete dag r false =
                setStatus dag r NodeStatus.failed := by
              rw [markTaskComplete, hgr]
              rfl
            rw [hres, statusById, getNode_setStatus, hx] at hready
            by_cases hxr : n.id = r
            · simp [hxr] at hready
            · simp [hxr, hpend] at hready
        | true =>
            have hres : markTaskComplete dag r true =
                node.dependents.foldl markDependentStep
                  (setStatus dag r NodeStatus.completed) := by
              rw [markTaskComplete, hgr]
              rfl
            have hP : Promo (setStatus dag r NodeStatus.completed)
                (markTaskComplete dag r true) := by
              rw [hres]
              exact markDependents_promo _ node.dependents _
                (promo_refl (setStatus dag r NodeStatus.completed))
            have hd1x : getNode (setStatus dag r NodeStatus.completed) x =
                some (if n.id = r then { n with status := NodeStatus.completed } else n) := by
              rw [getNode_setStatus, hx]
              rfl
            by_cases hxr : n.id = r
            · rw [if_pos hxr] at hd1x
              rcases hP.2 x with heq | ⟨m, hd1m, hmp, _, _⟩
              · rw [statusById, heq, hd1x] at hready
                simp at hready
              · rw [hd1x] at hd1m
                have hmn := Option.some.inj hd1m
                rw [← hmn] at hmp
                simp at hmp
            · rw [if_neg hxr] at hd1x
              rcases hP.2 x with heq | ⟨m, hd1m, _, hmd, _⟩
              · rw [statusById, heq, hd1x] at hready
                simp [hpend] at hready
              · rw [hd1x] at hd1m
                have hmn := Option.some.inj hd1m
                subst hmn
                rw [promo_allDepsComplete hP]
                exact hmd
  · intro dag
    simp [isDAGComplete, List.all_eq_true]

/-- Witness for C2: on the concrete chain DAGs, `getReadyTasks` and
`markTaskComplete` really do promote `node_1`, and the theorem yields that
its dependency `node_0` is `completed`. -/
theorem dispatch_requires_completed_dependencies_witness :
    allDepsComplete chainDoneDag ["node_0"] = true ∧
    allDepsComplete (markTaskComplete chainRunningDag "node_0" true) ["node_0"] = true := by
  constructor
  · exact dispatch_requires_completed_dependencies.2.1 chainDoneDag (by decide)
      "node_1"
      { id := "node_1", taskId := "", satelliteId := "edison",
        status := NodeStatus.pending,
        dependencies := ["node_0"], dependents := [] }
      rfl rfl rfl
  · exact dispatch_requires_completed_dependencies.2.2.1 chainRunningDag "node_0" true
      "node_1"
      { id := "node_1", taskId := "", satelliteId := "edison",
        status := NodeStatus.pending,
        dependencies := ["node_0"], dependents := [] }
      rfl rfl rfl


theorem applyPenalty_foldl (issues : List CritiqueIssue) : ∀ (a : Int),
    issues.foldl applyPenalty a =
      a - (25 * (issues.countP (fun i => i.severity = Severity.critical) : Int)
        + 15 * (issues.countP (fun i => i.severity = Severity.major) : Int)
        + 5 * (issues.countP (fun i => i.severity = Severity.minor) : Int)
        + 1 * (issues.countP (fun i => i.severity = Severity.info) : Int)) := by
  induction issues with
  | nil => intro a; simp
  | cons i t ih =>
      intro a
      rw [List.foldl_cons, ih]
      cases hs : i.severity <;>
        simp [applyPenalty, hs, List.countP_cons] <;> ring

/-- **C7.** For every issue list, the critic's score is
`max(0, 100 − 25·#critical − 15·#major − 5·#minor − 1·#info)`, and the
critique is approved iff the score is at least 70 *and* no issue is
critical; in particular one critical plus one minor issue scores exactly
70 yet is not approved. -/
theorem critic_score_and_approval :
    (∀ issues : List CritiqueIssue,
      calculateScore issues =
        max 0 (100
          - 25 * (issues.countP (fun i => i.severity = Severity.critical) : Int)
          - 15 * (issues.countP (fun i => i.severity = Severity.major) : Int)
          - 5 * (issues.countP (fun i => i.severity = Severity.minor) : Int)
          - 1 * (issues.countP (fun i => i.severity = Severity.info) : Int)) ∧
      ((critiqueOf issues).approved = true ↔
        70 ≤ (critiqueOf issues).score ∧
          ∀ i ∈ issues, i.severity ≠ Severity.critical)) ∧
    (critiqueOf
      [ { issueType := "security", severity := Severity.critical,
          description := "eval() call" },
        { issueType := "warning", severity := Severity.minor,
          description := "console.log left in" } ]).score = 70 ∧
    (critiqueOf
      [ { issueType := "security", severity := Severity.critical,
          description := "eval() call" },
        { issueType := "warning", severity := Severity.minor,
          description := "console.log left in" } ]).approved = false := by
  refine ⟨fun issues => ⟨?_, ?_⟩, by decide, by decide⟩
  · rw [calculateScore, applyPenalty_foldl]
    ring_nf
  · simp only [critiqueOf, calculateScore, Bool.and_eq_true, decide_eq_true_eq,
      Bool.not_eq_true', List.any_eq_false, decide_eq_false_iff_not]

/-- Witness for C7: an empty issue list scores ≥ 70 with no critical
issue, so the theorem's approval equivalence yields `approved = true`. -/
theorem critic_score_and_approval_witness :
    (critiqueOf []).approved = true := by
  exact ((critic_score_and_approval.1 []).2).mpr
    ⟨by decide, fun i hi => absurd hi (List.not_mem_nil i)⟩


theorem analyze_true_lt {e : String} {k m : Nat}
    (h : analyzeErrorForRetry e k m = true) : k < m := by
  by_contra hc
  rw [analyzeErrorForRetry, if_pos (Nat.le_of_not_lt hc)] at h
  exact Bool.noConfusion h

theorem retryLoop_spec (call : Nat → Except String ToolCallOk) (m : Nat) :
    ∀ (gas attempt : Nat) (lastError : Option String) (delays : List Nat),
      m - attempt ≤ gas →
      (attempt = 0 ∨ attempt < m) →
      delays = (List.range attempt).map (fun k => min (1000 * 2 ^ k) 10000) →
      (retryLoop call m attempt lastError delays).delays =
        (List.range ((retryLoop call m attempt lastError delays).attempts - 1)).map
          (fun k => min (1000 * 2 ^ k) 10000) ∧
      attempt < (retryLoop call m attempt lastError delays).attempts ∧
      (retryLoop call m attempt lastError delays).attempts ≤ max m 1 := by
  intro gas
  induction gas with
  | zero =>
      intro attempt lastError delays hgas hinit hdel
      have h0 : attempt = 0 := by omega
      have hm : m = 0 := by omega
      subst h0; subst hm
      rw [retryLoop, if_pos (Nat.le_refl 0)]
      cases hc : call 1 with
      | ok r =>
          simp only [hc]
          exact ⟨by simpa using hdel, Nat.zero_lt_one, by simp⟩
      | error e =>
          have ha : analyzeErrorForRetry e 1 0 = false := by
            rw [analyzeErrorForRetry, if_pos (Nat.zero_le 1)]
          simp only [hc, ha]
          exact ⟨by simpa using hdel, Nat.zero_lt_one, by simp⟩
  | succ g ih =>
      intro attempt lastError delays hgas hinit hdel
      have hle : attempt ≤ m := by
        rcases hinit with rfl | h
        · exact Nat.zero_le m
        · exact Nat.le_of_lt h
      have hbound : attempt + 1 ≤ max m 1 := by
        rcases hinit with rfl | h
        · exact Nat.le_max_right m 1
        · exact Nat.le_trans h (Nat.le_max_left m 1)
      rw [retryLoop, if_pos hle]
      cases hc : call (attempt + 1) with
      | ok r =>
          simp only [hc]
          refine ⟨?_, Nat.lt_succ_self attempt, hbound⟩
          simpa using hdel
      | error e =>
          by_cases ha : analyzeErrorForRetry e (attempt + 1) m = true
          · simp only [hc, ha, if_pos]
            have hlt : attempt + 1 < m := analyze_true_lt ha
            have hrec := ih (attempt + 1) (some e)
              (delays ++ [min (1000 * 2 ^ (attempt + 1 - 1)) 10000])
              (by omega) (Or.inr hlt)
              (by rw [hdel, List.range_succ, List.map_append]; simp)
            exact ⟨hrec.1, Nat.lt_trans (Nat.lt_succ_self attempt) hrec.2.1, hrec.2.2⟩
          · simp only [hc, Bool.not_eq_true] at ha ⊢
            simp only [ha]
            refine ⟨?_, Nat.lt_succ_self attempt, hbound⟩
            simpa using hdel

/-- **C6.** The executor's retry policy: (a) with `maxRetries ≥ 1` (all
call sites use the default 3) at most `maxRetries` attempts are made;
(b) the backoff waits are exactly `min(1000·2^(k−1), 10000)` ms after the
`k`-th failed-and-retried attempt; (c) after a thrown attempt with
`attempt < maxRetries` the decision to retry is exactly the error-message
classification — 5xx/timeout/connection/rate-limit errors retry, 4xx
(400/401/403) do not, anything unclassified defaults to retry — and no
retry ever happens once `attempt ≥ maxRetries`. -/
theorem executor_retry_policy :
    (∀ (call : Nat → Except String ToolCallOk) (m : Nat), 1 ≤ m →
      (executeToolWithRetry call m).attempts ≤ m) ∧
    (∀ (call : Nat → Except String ToolCallOk) (m : Nat),
      (executeToolWithRetry call m).delays =
        (List.range ((executeToolWithRetry call m).attempts - 1)).map
          (fun k => min (1000 * 2 ^ k) 10000)) ∧
    (∀ (e : String) (k m : Nat), k < m →
      (includes e "500" = true ∨ includes e "502" = true ∨ includes e "503" = true ∨
       includes e "timeout" = true ∨ includes e "ETIMEDOUT" = true ∨
       includes e "ECONNREFUSED" = true ∨ includes e "ENOTFOUND" = true ∨
       includes e "429" = true ∨ includes e "rate limit" = true) →
      analyzeErrorForRetry e k m = true) ∧
    (∀ (e : String) (k m : Nat), k < m →
      (includes e "400" = true ∨ includes e "401" = true ∨ includes e "403" = true) →
      (includes e "500" = false ∧ includes e "502" = false ∧ includes e "503" = false ∧
       includes e "timeout" = false ∧ includes e "ETIMEDOUT" = false ∧
       includes e "ECONNREFUSED" = false ∧ includes e "ENOTFOUND" = false ∧
       includes e "429" = false ∧ includes e "rate limit" = false) →
      analyzeErrorForRetry e k m = false) ∧
    (∀ (e : String) (k m : Nat), k < m →
      (includes e "500" = false ∧ includes e "502" = false ∧ includes e "503" = false ∧
       includes e "timeout" = false ∧ includes e "ETIMEDOUT" = false ∧
       includes e "ECONNREFUSED" = false ∧ includes e "ENOTFOUND" = false ∧
       includes e "429" = false ∧ includes e "rate limit" = false ∧
       includes e "400" = false ∧ includes e "401" = false ∧ includes e "403" = false) →
      analyzeErrorForRetry e k m = true) ∧
    (∀ (e : String) (k m : Nat), m ≤ k → analyzeErrorForRetry e k m = false) := by
  refine ⟨?_, ?_, ?_, ?_, ?_, ?_⟩
  · intro call m hm
    have h := retryLoop_spec call m m 0 none [] (by omega) (Or.inl rfl) (by simp)
    have := h.2.2
    rwa [Nat.max_eq_left hm] at this
  · intro call m
    exact (retryLoop_spec call m m 0 none [] (by omega) (Or.inl rfl) (by simp)).1
  · intro e k m hk hor
    have hnot : ¬ (k ≥ m) := Nat.not_le.mpr hk
    rw [analyzeErrorForRetry, if_neg hnot]
    rcases hor with h | h | h | h | h | h | h | h | h <;> simp [h]
  · intro e k m hk h4 hnone
    obtain ⟨h1, h2, h3, h4t, h5, h6, h7, h8, h9⟩ := hnone
    have hnot : ¬ (k ≥ m) := Nat.not_le.mpr hk
    rw [analyzeErrorForRetry, if_neg hnot]
    rcases h4 with h | h | h <;> simp [h1, h2, h3, h4t, h5, h6, h7, h8, h9, h]
  · intro e k m hk hnone
    obtain ⟨h1, h2, h3, h4, h5, h6, h7, h8, h9, h10, h11, h12⟩ := hnone
    have hnot : ¬ (k ≥ m) := Nat.not_le.mpr hk
    rw [analyzeErrorForRetry, if_neg hnot]
    simp [h1, h2, h3, h4, h5, h6, h7, h8, h9, h10, h11, h12]
  · intro e k m hk
    rw [analyzeErrorForRetry, if_pos hk]

/-- Witness for C6: with the always-503 tool and the default
`maxRetries = 3`, the bound, the retryable classification of a 503 error
and the non-retryable classification of a 401 error are all realized. -/
theorem executor_retry_policy_witness :
    (1 ≤ 3 ∧ (executeToolWithRetry alwaysServerError 3).attempts ≤ 3) ∧
    analyzeErrorForRetry "HTTP 503 Service Unavailable" 1 3 = true ∧
    analyzeErrorForRetry "HTTP 401 Unauthorized" 1 3 = false :=
  ⟨⟨by decide, executor_retry_policy.1 alwaysServerError 3 (by decide)⟩,
   executor_retry_policy.2.2.1 "HTTP 503 Service Unavailable" 1 3 (by decide)
     (Or.inr (Or.inr (Or.inl (by decide)))),
   executor_retry_policy.2.2.2.1 "HTTP 401 Unauthorized" 1 3 (by decide)
     (Or.inr (Or.inl (by decide)))
     (by refine ⟨?_, ?_, ?_, ?_, ?_, ?_, ?_, ?_, ?_⟩ <;> decide)⟩


theorem castSum_tokenCounts (l : List ConversationTurn) :
    (((l.map (fun m => m.tokenCount)).sum : Nat) : ℤ) =
      (l.map (fun t => (t.tokenCount : ℤ))).sum := by
  induction l with
  | nil => rfl
  | cons a t ih => simp [ih]

theorem evictWalk_spec (tokensToFree : ℤ) :
    ∀ (hist : List ConversationTurn) (acc : ℤ) (count : Nat),
      count ≤ evictWalk tokensToFree hist acc count ∧
      evictWalk tokensToFree hist acc count - count ≤ hist.length ∧
      (hist ≠ [] → count < evictWalk tokensToFree hist acc count) ∧
      (tokensToFree ≤ acc + (hist.map (fun t => (t.tokenCount : ℤ))).sum →
        tokensToFree ≤ acc +
          ((hist.take (evictWalk tokensToFree hist acc count - count)).map
            (fun t => (t.tokenCount : ℤ))).sum) := by
  intro hist
  induction hist with
  | nil =>
      intro acc count
      refine ⟨Nat.le_refl _, by simp [evictWalk], fun hne => absurd rfl hne, ?_⟩
      simp [evictWalk]
  | cons turn rest ih =>
      intro acc count
      rw [evictWalk]
      by_cases hbr : acc + (turn.tokenCount : ℤ) ≥ tokensToFree
      · simp only [if_pos hbr]
        refine ⟨Nat.le_succ count, by simp, fun _ => Nat.lt_succ_self count, ?_⟩
        intro _
        have h1 : count + 1 - count = 1 := by omega
        rw [h1]
        simpa using hbr
      · simp only [if_neg hbr]
        obtain ⟨ih1, ih2, _, ih4⟩ := ih (acc + (turn.tokenCount : ℤ)) (count + 1)
        refine ⟨Nat.le_trans (Nat.le_succ count) ih1, by simp; omega,
          fun _ => Nat.lt_of_lt_of_le (Nat.lt_succ_self count) ih1, ?_⟩
        intro hsum
        have hsum' : tokensToFree ≤ (acc + (turn.tokenCount : ℤ)) +
            (rest.map (fun t => (t.tokenCount : ℤ))).sum := by
          simp only [List.map_cons, List.sum_cons] at hsum
          linarith
        have hres := ih4 hsum'
        have hNc : evictWalk tokensToFree rest (acc + (turn.tokenCount : ℤ)) (count + 1) - count =
            (evictWalk tokensToFree rest (acc + (turn.tokenCount : ℤ)) (count + 1) - (count + 1)) + 1 := by
          omega
        rw [hNc, List.take_succ_cons]
        simp only [List.map_cons, List.sum_cons]
        linarith

theorem performContextEviction_noop (st : YorkState) (s : String) (em : List ℚ)
    (h : (evaluateEviction st).shouldEvict = false) :
    performContextEviction st s em =
      ("No eviction needed - context usage is within limits.", st) := by
  rw [performContextEviction]
  simp [h]

theorem performContextEviction_state (st : YorkState) (s : String) (em : List ℚ)
    (h : (evaluateEviction st).shouldEvict = true)
    (hne : st.conversationHistory.take (evaluateEviction st).messagesToSummarize ≠ []) :
    (performContextEviction st s em).2.contextTokens =
      st.contextTokens - ((st.conversationHistory.take
        (evaluateEviction st).messagesToSummarize).map (fun m => m.tokenCount)).sum ∧
    (performContextEviction st s em).2.maxContextTokens = st.maxContextTokens ∧
    (performContextEviction st s em).2.contextSlices.length =
      st.contextSlices.length + 1 := by
  rw [performContextEviction]
  simp [h, hne]


/-- **C8.** Eviction is idempotent: if the token counter matches the live
history (as every reachable state does), the ceiling is the default 4096
and `performContextEviction` finds eviction due, then it stores exactly
one ContextSlice, and an immediately following second call — with no
turns added in between — returns the "No eviction needed" message and
leaves the state (history, counter, stored slices) completely unchanged,
because the first call freed at least `tokensToFree` tokens, bringing
usage to at most the 50% target, below the 0.8 threshold. -/
theorem eviction_idempotent (st : YorkState) (s1 s2 : String) (e1 e2 : List ℚ)
    (hwf : st.contextTokens =
      (st.conversationHistory.map (fun t => (t.tokenCount : ℤ))).sum)
    (hmax : st.maxContextTokens = MAX_CONTEXT_TOKENS)
    (hev : (evaluateEviction st).shouldEvict = true) :
    (performContextEviction st s1 e1).2.contextSlices.length =
      st.contextSlices.length + 1 ∧
    performContextEviction (performContextEviction st s1 e1).2 s2 e2 =
      ("No eviction needed - context usage is within limits.",
        (performContextEviction st s1 e1).2) := by
  have hu : ¬ ((st.contextTokens : ℚ) / (st.maxContextTokens : ℚ) < EVICTION_THRESHOLD) := by
    intro hc
    rw [evaluateEviction] at hev
    simp only [if_pos hc] at hev
    exact Bool.noConfusion hev
  have hT : 3277 ≤ st.contextTokens := by
    rw [hmax] at hu
    have hge : (4 : ℚ) / 5 ≤ (st.contextTokens : ℚ) / 4096 := by
      have := not_lt.mp hu
      rw [EVICTION_THRESHOLD] at this
      norm_num [MAX_CONTEXT_TOKENS] at this ⊢
      exact this
    rw [div_le_div_iff₀ (by norm_num) (by norm_num)] at hge
    have : (16384 : ℚ) ≤ (st.contextTokens : ℚ) * 5 := by linarith
    have hz : (16384 : ℤ) ≤ st.contextTokens * 5 := by exact_mod_cast this
    omega
  have hfloor : (evaluateEviction st).tokensToFree = st.contextTokens - 2048 := by
    rw [evaluateEviction, if_neg hu]
    simp only
    rw [hmax]
    rw [show ((MAX_CONTEXT_TOKENS : ℚ) * TARGET_AFTER_EVICTION) = ((2048 : ℤ) : ℚ) by
      norm_num [MAX_CONTEXT_TOKENS, TARGET_AFTER_EVICTION]]
    rw [show ((st.contextTokens : ℚ) - ((2048 : ℤ) : ℚ)) = (((st.contextTokens - 2048 : ℤ)) : ℚ) by
      push_cast; ring]
    exact Int.floor_intCast _
  have hN : (evaluateEviction st).messagesToSummarize =
      evictWalk (st.contextTokens - 2048) st.conversationHistory 0 0 := by
    rw [evaluateEviction, if_neg hu]
    simp only
    rw [show (⌊(st.contextTokens : ℚ) - (st.maxContextTokens : ℚ) * TARGET_AFTER_EVICTION⌋ : ℤ)
        = st.contextTokens - 2048 from by
      have := hfloor
      rw [evaluateEviction, if_neg hu] at this
      exact this]
  have hhist : st.conversationHistory ≠ [] := by
    intro hcontra
    rw [hcontra] at hwf
    simp at hwf
    omega
  obtain ⟨hw1, hw2, hw3, hw4⟩ :=
    evictWalk_spec (st.contextTokens - 2048) st.conversationHistory 0 0
  have hNpos : 0 < (evaluateEviction st).messagesToSummarize := by
    rw [hN]; exact hw3 hhist
  have hne : st.conversationHistory.take (evaluateEviction st).messagesToSummarize ≠ [] := by
    intro hcontra
    rcases List.take_eq_nil_iff.mp hcontra with h0 | h0
    · rw [h0] at hNpos; exact Nat.lt_irrefl 0 hNpos
    · exact hhist h0
  obtain ⟨hct, hmx, hsl⟩ := performContextEviction_state st s1 e1 hev hne
  refine ⟨hsl, ?_⟩
  have hfreed : st.contextTokens - 2048 ≤
      ((st.conversationHistory.take (evaluateEviction st).messagesToSummarize).map
        (fun t => (t.tokenCount : ℤ))).sum := by
    have hin : st.contextTokens - 2048 ≤
        0 + (st.conversationHistory.map (fun t => (t.tokenCount : ℤ))).sum := by
      rw [← hwf]; omega
    have := hw4 hin
    rw [hN]
    simpa using this
  have hleft : (performContextEviction st s1 e1).2.contextTokens ≤ 2048 := by
    rw [hct]
    have hcast : ((((st.conversationHistory.take
        (evaluateEviction st).messagesToSummarize).map (fun m => m.tokenCount)).sum : Nat) : ℤ) =
        ((st.conversationHistory.take (evaluateEviction st).messagesToSummarize).map
          (fun t => (t.tokenCount : ℤ))).sum := castSum_tokenCounts _
    omega
  have hnoev : (evaluateEviction (performContextEviction st s1 e1).2).shouldEvict = false := by
    rw [evaluateEviction, if_pos ?_]
    rw [hmx, hmax]
    have hlt : ((performContextEviction st s1 e1).2.contextTokens : ℚ) * 5 < 4 * 4096 := by
      have : ((performContextEviction st s1 e1).2.contextTokens : ℚ) ≤ 2048 := by
        exact_mod_cast hleft
      linarith
    rw [EVICTION_THRESHOLD]
    norm_num [MAX_CONTEXT_TOKENS]
    rw [div_lt_div_iff₀ (by norm_num) (by norm_num)]
    exact hlt
  exact performContextEviction_noop _ s2 e2 hnoev

/-- Witness for C8: a concrete over-budget state (a single 4000-token
turn against the 4096 ceiling) really evicts once and then reports
"No eviction needed" on the second call with the state unchanged. -/
theorem eviction_idempotent_witness :
    ((performContextEviction
        { conversationHistory := [{ role := "user", content := "q", tokenCount := 4000 }],
          contextTokens := 4000, maxContextTokens := MAX_CONTEXT_TOKENS,
          contextSlices := [] } "summary" []).2.contextSlices.length = 0 + 1) ∧
    performContextEviction
        (performContextEviction
          { conversationHistory := [{ role := "user", content := "q", tokenCount := 4000 }],
            contextTokens := 4000, maxContextTokens := MAX_CONTEXT_TOKENS,
            contextSlices := [] } "summary" []).2 "summary2" [] =
      ("No eviction needed - context usage is within limits.",
        (performContextEviction
          { conversationHistory := [{ role := "user", content := "q", tokenCount := 4000 }],
            contextTokens := 4000, maxContextTokens := MAX_CONTEXT_TOKENS,
            contextSlices := [] } "summary" []).2) :=
  eviction_idempotent
    { conversationHistory := [{ role := "user", content := "q", tokenCount := 4000 }],
      contextTokens := 4000, maxContextTokens := MAX_CONTEXT_TOKENS,
      contextSlices := [] } "summary" "summary2" [] []
    (by simp) rfl
    (by
      simp only [evaluateEviction]
      rw [if_neg (by norm_num [EVICTION_THRESHOLD, MAX_CONTEXT_TOKENS])])


set_option maxRecDepth 8000 in
/-- **C4 counterexample.** `chunkText` on 1000 `'a'`s with
`chunkSize 100, chunkOverlap 0` does *not* produce chunks of at most 100
characters: the word-level fallback splits on spaces, and a segment with
no spaces falls through as a single oversized chunk. -/
theorem chunkText_thousand_a_exceeds_bound :
    ¬ (∀ c ∈ chunkText aThousand { chunkSize := 100, chunkOverlap := 0 },
        c.length ≤ 100) := by
  decide

set_option maxRecDepth 8000 in
/-- **C4 (amended).** On that input `chunkText` returns exactly one chunk,
the original 1000-character content itself — so concatenating all chunks
does reconstruct the original, while the ≤ `chunkSize` bound fails. -/
theorem chunkText_thousand_a_single_chunk :
    chunkText aThousand { chunkSize := 100, chunkOverlap := 0 } = [aThousand] ∧
    (chunkText aThousand { chunkSize := 100, chunkOverlap := 0 }).flatten = aThousand := by
  exact ⟨by decide, by decide⟩


theorem semanticSearch_foldl_mem (st : PunkState) :
    ∀ (neighbors : List Neighbor) (acc : List SearchResult) (r : SearchResult),
      r ∈ neighbors.foldl (semanticStep st) acc →
      r ∈ acc ∨ ∃ nb ∈ neighbors, ∃ doc,
        st.documents.find? (fun d => d.id = nb.id) = some doc ∧
        r = { docId := doc.id, score := 1 - nb.distance,
              matchType := MatchType.semantic } := by
  intro neighbors
  induction neighbors with
  | nil => intro acc r hr; exact Or.inl hr
  | cons nb rest ih =>
      intro acc r hr
      rw [List.foldl_cons] at hr
      rcases ih (semanticStep st acc nb) r hr with hacc | ⟨nb', hnb', doc, hdoc, hr'⟩
      · rw [semanticStep] at hacc
        cases hfind : st.documents.find? (fun d => d.id = nb.id) with
        | some doc =>
            rw [hfind] at hacc
            rcases List.mem_append.mp hacc with h | h
            · exact Or.inl h
            · right
              exact ⟨nb, List.mem_cons_self nb rest, doc, hfind, List.mem_singleton.mp h⟩
        | none =>
            rw [hfind] at hacc
            exact Or.inl hacc
      · exact Or.inr ⟨nb', List.mem_cons_of_mem nb hnb', doc, hdoc, hr'⟩

/-- **C10.** `getAllEmbeddings` always returns the empty list, so every
successfully-embedded `addDocument` rebuilds the Voy index as exactly the
one new entry — embeddings of documents added earlier in the session are
dropped — and consequently `semanticSearch` (whose Voy oracle only
returns ids present in the index) can only return the newest document. -/
theorem addDocument_rebuilds_index_with_only_new_document :
    (∀ st : PunkState, getAllEmbeddings st = []) ∧
    (∀ (st : PunkState) (content : String) (metadata : DocumentMetadata)
       (newId : String) (now : ℤ) (emb : List ℚ),
      (addDocument st content metadata newId now (some emb)).1.voyIndex =
        [{ id := newId, title := metadata.title.getD newId,
           url := metadata.source, embeddings := emb }]) ∧
    (∀ (st : PunkState) (content : String) (metadata : DocumentMetadata)
       (newId : String) (now : ℤ) (emb : List ℚ)
       (voySearch : List VoyEmbeddedResource → Nat → List Neighbor),
      (∀ (idx : List VoyEmbeddedResource) (limit : Nat), ∀ nb ∈ voySearch idx limit,
        nb.id ∈ idx.map (fun e => e.id)) →
      ∀ (limit : Nat) (r : SearchResult),
        r ∈ semanticSearch (addDocument st content metadata newId now (some emb)).1
              voySearch limit →
        r.docId = newId) := by
  refine ⟨fun _ => rfl, fun st content metadata newId now emb => rfl, ?_⟩
  intro st content metadata newId now emb voySearch hvoy limit r hr
  rw [semanticSearch] at hr
  rcases semanticSearch_foldl_mem _ _ _ _ hr with hacc | ⟨nb, hnb, doc, hdoc, hr'⟩
  · exact absurd hacc (List.not_mem_nil r)
  · have hid : nb.id ∈ ((addDocument st content metadata newId now (some emb)).1.voyIndex).map
        (fun e => e.id) := hvoy _ limit nb hnb
    have hix : (addDocument st content metadata newId now (some emb)).1.voyIndex =
        [{ id := newId, title := metadata.title.getD newId,
           url := metadata.source, embeddings := emb }] := rfl
    rw [hix] at hid
    simp at hid
    have hdocid : doc.id = nb.id := by
      have := List.find?_some hdoc
      simpa using this
    rw [hr']
    simp [hdocid, hid]

/-- Witness for C10: in a fresh store, adding one embedded document and
searching with a Voy oracle that returns every index entry yields only
the newly added document. -/
theorem addDocument_rebuilds_index_witness :
    (addDocument punkEmpty "hello world" punkMeta "doc-new" 0 (some [1])).1.voyIndex =
      [{ id := "doc-new", title := "doc-new", url := "user", embeddings := [1] }] ∧
    ({ docId := "doc-new", score := 1, matchType := MatchType.semantic } :
        SearchResult).docId = "doc-new" :=
  ⟨addDocument_rebuilds_index_with_only_new_document.2.1 punkEmpty "hello world"
      punkMeta "doc-new" 0 [1],
   addDocument_rebuilds_index_with_only_new_document.2.2 punkEmpty "hello world"
      punkMeta "doc-new" 0 [1] voyAll
      (fun idx limit nb hnb => by
        rcases List.mem_map.mp hnb with ⟨e, he, rfl⟩
        exact List.mem_map_of_mem _ he)
      10
      { docId := "doc-new", score := 1, matchType := MatchType.semantic }
      (by
        have hsem : semanticSearch
            (addDocument punkEmpty "hello world" punkMeta "doc-new" 0 (some [1])).1
            voyAll 10 =
            [{ docId := "doc-new", score := 1, matchType := MatchType.semantic }] := by
          norm_num [semanticSearch, voyAll, addDocument, punkEmpty, semanticStep,
            getAllEmbeddings, punkMeta]
        rw [hsem]
        exact List.mem_singleton.mpr rfl)⟩


theorem semEntry_key (w : ℚ) (done : List SearchResult) (r : SearchResult) :
    (semEntry w done r).1 = r.docId := by
  rw [semEntry]
  cases done.find? (fun t => t.docId = r.docId) <;> rfl

theorem semEntry_append_ne (w : ℚ) (done : List SearchResult)
    (t r : SearchResult) (h : r.docId ≠ t.docId) :
    semEntry w (done ++ [t]) r = semEntry w done r := by
  rw [semEntry, semEntry, List.find?_append]
  have ht : List.find? (fun d => decide (d.docId = r.docId)) [t] = none := by
    rw [List.find?_eq_none]
    intro x hx
    rcases List.mem_singleton.mp hx with rfl
    simp only [decide_eq_true_eq]
    exact fun hc => h hc.symm
  rw [ht, Option.or_none]

theorem addSemantic_foldl (w : ℚ) :
    ∀ (sem : List SearchResult) (m0 : List (String × SearchResult)),
      (sem.map (fun r => r.docId)).Nodup →
      (∀ r ∈ sem, ∀ p ∈ m0, p.1 ≠ r.docId) →
      sem.foldl (addSemanticStep w) m0 =
        m0 ++ sem.map (fun r =>
          (r.docId, { docId := r.docId, score := r.score * w,
                      matchType := MatchType.hybrid })) := by
  intro sem
  induction sem with
  | nil => intro m0 _ _; simp
  | cons r rest ih =>
      intro m0 hnd hdis
      have hnd' : r.docId ∉ rest.map (fun x => x.docId) ∧
          (rest.map (fun x => x.docId)).Nodup := by
        simpa using hnd
      have hany : m0.any (fun p => p.1 = r.docId) = false := by
        rw [List.any_eq_false]
        intro p hp
        simp only [decide_eq_true_eq]
        exact fun hc => hdis r (List.mem_cons_self r rest) p hp hc
      have hstep : addSemanticStep w m0 r =
          m0 ++ [(r.docId, { docId := r.docId, score := r.score * w,
                             matchType := MatchType.hybrid })] := by
        rw [addSemanticStep, mapSet, if_neg]
        rw [hany]
        exact Bool.false_ne_true
      have hdis' : ∀ r' ∈ rest, ∀ p ∈ addSemanticStep w m0 r, p.1 ≠ r'.docId := by
        intro r' hr' p hp
        rw [hstep] at hp
        rcases List.mem_append.mp hp with hp0 | hp1
        · exact hdis r' (List.mem_cons_of_mem r hr') p hp0
        · rcases List.mem_singleton.mp hp1 with rfl
          intro hc
          have hmem : r'.docId ∈ rest.map (fun x => x.docId) :=
            List.mem_map_of_mem _ hr'
          rw [← hc] at hmem
          exact hnd'.1 hmem
      rw [List.foldl_cons, ih _ hnd'.2 hdis', hstep]
      simp


theorem addKeyword_step (w : ℚ) (sem done : List SearchResult) (t : SearchResult)
    (hsem : (sem.map (fun r => r.docId)).Nodup)
    (htdone : ∀ d ∈ done, d.docId ≠ t.docId) :
    addKeywordStep (1 - w) (mergedAssoc w sem done) t =
      mergedAssoc w sem (done ++ [t]) := by
  by_cases hany : sem.any (fun r => r.docId = t.docId) = true
  · have hex : (sem.find? (fun r => r.docId = t.docId)).isSome := by
      rw [List.find?_isSome]
      obtain ⟨x, hx, hpx⟩ := List.any_eq_true.mp hany
      exact ⟨x, hx, hpx⟩
    obtain ⟨r0, hr0⟩ := Option.isSome_iff_exists.mp hex
    have hr0mem : r0 ∈ sem := List.mem_of_find?_eq_some hr0
    have hr0id : r0.docId = t.docId := by simpa using List.find?_some hr0
    have hdnone : done.find? (fun d => decide (d.docId = r0.docId)) = none := by
      rw [List.find?_eq_none]
      intro d hd
      simp only [decide_eq_true_eq]
      rw [hr0id]
      exact htdone d hd
    have hsemEntry_r0 : semEntry w done r0 =
        (r0.docId, { docId := r0.docId, score := r0.score * w,
                     matchType := MatchType.hybrid }) := by
      rw [semEntry, hdnone]
    have hfind : (mergedAssoc w sem done).find? (fun p => p.1 = t.docId) =
        some (semEntry w done r0) := by
      rw [mergedAssoc, List.find?_append]
      have hcomp : ((fun p : String × SearchResult => decide (p.1 = t.docId)) ∘
          semEntry w done) = fun r => decide (r.docId = t.docId) := by
        funext r
        simp [Function.comp, semEntry_key]
      have h1 : (sem.map (semEntry w done)).find? (fun p => p.1 = t.docId) =
          some (semEntry w done r0) := by
        rw [List.find?_map, hcomp, hr0]
        rfl
      rw [h1]
      rfl
    rw [addKeywordStep, hfind]
    dsimp only
    rw [hsemEntry_r0]
    dsimp only
    rw [mergedAssoc, mergedAssoc, List.map_append]
    have hfilt : (done ++ [t]).filter
        (fun d => !(sem.any (fun r => r.docId = d.docId))) =
        done.filter (fun d => !(sem.any (fun r => r.docId = d.docId))) := by
      rw [List.filter_append]
      have : [t].filter (fun d => !(sem.any (fun r => r.docId = d.docId))) = [] := by
        simp [hany]
      rw [this, List.append_nil]
    rw [hfilt]
    congr 1
    · rw [List.map_map]
      refine List.map_congr_left (fun r hr => ?_)
      by_cases hrid : r.docId = t.docId
      · have hreq : r = r0 :=
          List.inj_on_of_nodup_map hsem hr hr0mem (by rw [hrid, hr0id])
        subst hreq
        have hkey : (semEntry w done r).1 = t.docId := by
          rw [semEntry_key]
          exact hr0id
        simp only [Function.comp, hsemEntry_r0]
        rw [if_pos (by simpa using hr0id)]
        rw [semEntry, List.find?_append, hdnone]
        have hts : [t].find? (fun d => decide (d.docId = r.docId)) = some t := by
          simp [hr0id]
        rw [hts]
        rfl
      · simp only [Function.comp]
        rw [if_neg (by simpa [semEntry_key] using hrid)]
        exact (semEntry_append_ne w done t r hrid).symm
    · rw [List.map_map]
      refine List.map_congr_left (fun d hd => ?_)
      have hdid : d.docId ≠ t.docId := htdone d (List.mem_of_mem_filter hd)
      simp only [Function.comp, kwOnlyEntry]
      rw [if_neg (by simpa using hdid)]
  · have hanyf : sem.any (fun r => r.docId = t.docId) = false := by
      rwa [Bool.not_eq_true] at hany
    have hnotin : ∀ r ∈ sem, r.docId ≠ t.docId := by
      intro r hr
      have := List.any_eq_false.mp hanyf r hr
      simpa using this
    have hfind : (mergedAssoc w sem done).find? (fun p => p.1 = t.docId) = none := by
      rw [List.find?_eq_none]
      intro p hp
      simp only [decide_eq_true_eq]
      rw [mergedAssoc] at hp
      rcases List.mem_append.mp hp with hp1 | hp2
      · obtain ⟨r, hr, rfl⟩ := List.mem_map.mp hp1
        rw [semEntry_key]
        exact hnotin r hr
      · obtain ⟨d, hd, rfl⟩ := List.mem_map.mp hp2
        exact htdone d (List.mem_of_mem_filter hd)
    rw [addKeywordStep, hfind]
    dsimp only
    have hfilt : (done ++ [t]).filter
        (fun d => !(sem.any (fun r => r.docId = d.docId))) =
        done.filter (fun d => !(sem.any (fun r => r.docId = d.docId))) ++ [t] := by
      rw [List.filter_append]
      congr 1
      simp [hanyf]
    rw [mergedAssoc, mergedAssoc, hfilt]
    have hsemmap : sem.map (semEntry w (done ++ [t])) = sem.map (semEntry w done) := by
      refine List.map_congr_left (fun r hr => ?_)
      exact semEntry_append_ne w done t r (hnotin r hr)
    rw [hsemmap, List.map_append]
    simp [kwOnlyEntry]


theorem addKeyword_foldl (w : ℚ) (sem : List SearchResult)
    (hsem : (sem.map (fun r => r.docId)).Nodup) :
    ∀ (rest done : List SearchResult),
      ((done ++ rest).map (fun t => t.docId)).Nodup →
      rest.foldl (addKeywordStep (1 - w)) (mergedAssoc w sem done) =
        mergedAssoc w sem (done ++ rest) := by
  intro rest
  induction rest with
  | nil => intro done _; simp
  | cons t rest' ih =>
      intro done hnd
      have ht : ∀ d ∈ done, d.docId ≠ t.docId := by
        intro d hd hc
        rw [List.map_append] at hnd
        have hdisj := (List.nodup_append.mp hnd).2.2
        exact hdisj (List.mem_map_of_mem _ hd)
          (by rw [hc]; exact List.mem_map_of_mem _ (List.mem_cons_self t rest'))
      rw [List.foldl_cons, addKeyword_step w sem done t hsem ht]
      have hnd' : (((done ++ [t]) ++ rest').map (fun x => x.docId)).Nodup := by
        simpa [List.append_assoc] using hnd
      have hres := ih (done ++ [t]) hnd'
      simpa [List.append_assoc] using hres

theorem hybridMerge_closed (sem kw : List SearchResult) (w : ℚ)
    (hsem : (sem.map (fun r => r.docId)).Nodup)
    (hkw : (kw.map (fun t => t.docId)).Nodup) :
    hybridMerge sem kw w = (mergedAssoc w sem kw).map (fun p => p.2) := by
  rw [hybridMerge]
  have h1 : sem.foldl (addSemanticStep w) [] = mergedAssoc w sem [] := by
    rw [addSemantic_foldl w sem [] hsem (fun r _ p hp => absurd hp (List.not_mem_nil p))]
    simp [mergedAssoc, semEntry]
  rw [h1]
  have h2 := addKeyword_foldl w sem hsem kw [] (by simpa using hkw)
  rw [h2]
  simp

theorem search_hybrid_eq (be : SearchBackend) (query : String) (opts : SearchOptions)
    (hmode : opts.searchMode = SearchMode.hybrid) :
    search be query opts =
      (((hybridMerge (be.semanticSearch query (opts.limit * 2))
          (be.keywordSearch query (opts.limit * 2)) opts.semanticWeight).filter
            (fun r => r.score ≥ opts.threshold)).mergeSort
              (fun a b => decide (b.score ≤ a.score))).take opts.limit := by
  rw [search, hmode]


/-- **C3.** Hybrid `search` is the weighted union of the two sub-searches:
(1) in `hybrid` mode (the default) `search` is exactly
"merge the `2×limit` sub-results, filter by `score ≥ threshold`, stable
sort descending, truncate to `limit`"; (2) the merge assigns a document
present in both sub-results `semanticScore·w + keywordScore·(1−w)`, a
document present in only one its single weighted score, all tagged
`hybrid` (3); and when either sub-search returns zero results the other's
documents are still returned with their weighted scores (4,5); every
returned result clears the threshold (6), at most `limit` results are
returned (7), in descending score order (8). -/
theorem hybrid_search_weighted_union :
    (∀ (be : SearchBackend) (query : String) (opts : SearchOptions),
      opts.searchMode = SearchMode.hybrid →
      search be query opts =
        (((hybridMerge (be.semanticSearch query (opts.limit * 2))
            (be.keywordSearch query (opts.limit * 2)) opts.semanticWeight).filter
              (fun r => r.score ≥ opts.threshold)).mergeSort
                (fun a b => decide (b.score ≤ a.score))).take opts.limit) ∧
    (∀ (sem kw : List SearchResult) (w : ℚ),
      (sem.map (fun r => r.docId)).Nodup → (kw.map (fun t => t.docId)).Nodup →
      hybridMerge sem kw w =
        sem.map (fun r =>
          match kw.find? (fun t => t.docId = r.docId) with
          | some t =>
              { docId := r.docId, score := r.score * w + t.score * (1 - w),
                matchType := MatchType.hybrid }
          | none =>
              { docId := r.docId, score := r.score * w,
                matchType := MatchType.hybrid }) ++
        (kw.filter (fun t => !(sem.any (fun r => r.docId = t.docId)))).map
          (fun t => { docId := t.docId, score := t.score * (1 - w),
                      matchType := MatchType.hybrid })) ∧
    (∀ (sem kw : List SearchResult) (w : ℚ),
      (sem.map (fun r => r.docId)).Nodup → (kw.map (fun t => t.docId)).Nodup →
      ∀ r ∈ hybridMerge sem kw w, r.matchType = MatchType.hybrid) ∧
    (∀ (sem : List SearchResult) (w : ℚ), (sem.map (fun r => r.docId)).Nodup →
      hybridMerge sem [] w =
        sem.map (fun r => { docId := r.docId, score := r.score * w,
                            matchType := MatchType.hybrid })) ∧
    (∀ (kw : List SearchResult) (w : ℚ), (kw.map (fun t => t.docId)).Nodup →
      hybridMerge [] kw w =
        kw.map (fun t => { docId := t.docId, score := t.score * (1 - w),
                           matchType := MatchType.hybrid })) ∧
    (∀ (be : SearchBackend) (query : String) (opts : SearchOptions),
      opts.searchMode = SearchMode.hybrid →
      ∀ r ∈ search be query opts, opts.threshold ≤ r.score) ∧
    (∀ (be : SearchBackend) (query : String) (opts : SearchOptions),
      opts.searchMode = SearchMode.hybrid →
      (search be query opts).length ≤ opts.limit) ∧
    (∀ (be : SearchBackend) (query : String) (opts : SearchOptions),
      opts.searchMode = SearchMode.hybrid →
      (search be query opts).Pairwise (fun a b => b.score ≤ a.score)) := by
  have hclosed : ∀ (sem kw : List SearchResult) (w : ℚ),
      (sem.map (fun r => r.docId)).Nodup → (kw.map (fun t => t.docId)).Nodup →
      hybridMerge sem kw w =
        sem.map (fun r =>
          match kw.find? (fun t => t.docId = r.docId) with
          | some t =>
              { docId := r.docId, score := r.score * w + t.score * (1 - w),
                matchType := MatchType.hybrid }
          | none =>
              { docId := r.docId, score := r.score * w,
                matchType := MatchType.hybrid }) ++
        (kw.filter (fun t => !(sem.any (fun r => r.docId = t.docId)))).map
          (fun t => { docId := t.docId, score := t.score * (1 - w),
                      matchType := MatchType.hybrid }) := by
    intro sem kw w hsem hkw
    rw [hybridMerge_closed sem kw w hsem hkw, mergedAssoc, List.map_append,
      List.map_map, List.map_map]
    congr 1
    · refine List.map_congr_left (fun r _ => ?_)
      simp only [Function.comp]
      rw [semEntry]
      cases kw.find? (fun t => decide (t.docId = r.docId)) <;> rfl
  refine ⟨fun be q opts h => search_hybrid_eq be q opts h, hclosed, ?_, ?_, ?_, ?_, ?_, ?_⟩
  · intro sem kw w hsem hkw r hr
    rw [hclosed sem kw w hsem hkw] at hr
    rcases List.mem_append.mp hr with h1 | h2
    · obtain ⟨x, _, rfl⟩ := List.mem_map.mp h1
      cases kw.find? (fun t => decide (t.docId = x.docId)) <;> rfl
    · obtain ⟨x, _, rfl⟩ := List.mem_map.mp h2
      rfl
  · intro sem w hsem
    rw [hclosed sem [] w hsem (by simp)]
    simp
  · intro kw w hkw
    rw [hclosed [] kw w (by simp) hkw]
    simp
  · intro be q opts hmode r hr
    rw [search_hybrid_eq be q opts hmode] at hr
    have h1 := (List.take_sublist _ _).subset hr
    have h2 := (List.mergeSort_perm _ _).subset h1
    have h3 := (List.mem_filter.mp h2).2
    simpa using h3
  · intro be q opts hmode
    rw [search_hybrid_eq be q opts hmode]
    exact List.length_take_le _ _
  · intro be q opts hmode
    rw [search_hybrid_eq be q opts hmode]
    refine List.Pairwise.sublist (List.take_sublist _ _) ?_
    have hs := @List.sorted_mergeSort SearchResult
      (fun a b : SearchResult => decide (b.score ≤ a.score))
      (fun a b c hab hbc => by
        simp only [decide_eq_true_eq] at hab hbc ⊢
        exact le_trans hbc hab)
      (fun a b => by
        simp only [decide_eq_true_eq, Bool.or_eq_true]
        exact le_total b.score a.score)
      ((hybridMerge (be.semanticSearch q (opts.limit * 2))
        (be.keywordSearch q (opts.limit * 2)) opts.semanticWeight).filter
          (fun r => r.score ≥ opts.threshold))
    exact hs.imp (fun h => of_decide_eq_true h)

/-- Witness for C3: one semantic hit `a` (score 1) and one keyword hit
`b` (score 1/2) merge under the default weight 0.7 into
`[a ↦ 0.7, b ↦ 0.15]`, both tagged hybrid. -/
theorem hybrid_search_weighted_union_witness :
    hybridMerge
      [{ docId := "a", score := 1, matchType := MatchType.semantic }]
      [{ docId := "b", score := 1/2, matchType := MatchType.keyword }] (7/10) =
      [{ docId := "a", score := 7/10, matchType := MatchType.hybrid },
       { docId := "b", score := 3/20, matchType := MatchType.hybrid }] := by
  rw [hybrid_search_weighted_union.2.1
    [{ docId := "a", score := 1, matchType := MatchType.semantic }]
    [{ docId := "b", score := 1/2, matchType := MatchType.keyword }] (7/10)
    (by decide) (by decide)]
  norm_num [List.find?_cons, List.find?_nil, List.filter_cons, List.filter_nil,
    show ("b" : String) ≠ "a" from by decide, show ("a" : String) ≠ "b" from by decide]


/-- **C9.** The processing lock: a `processRequest` call while another
run is in flight returns the thrown `'Already processing a request'`
error with the state untouched (no second run starts), and every
completed accepted run — normal return or thrown error, including
planning failure — ends with `isProcessing = false` (the `finally`
cleanup), so a subsequent request is accepted. -/
theorem processRequest_lock :
    (∀ (st : MeshState) (o : MeshOracle) (userInput : String) (fuel : Nat),
      st.isProcessing = true →
      processRequest st o userInput fuel =
        some (Except.error "Already processing a request", st)) ∧
    (∀ (st : MeshState) (o : MeshOracle) (userInput : String) (fuel : Nat)
       (res : Except String String) (st' : MeshState),
      st.isProcessing = false →
      processRequest st o userInput fuel = some (res, st') →
      st'.isProcessing = false) := by
  constructor
  · intro st o userInput fuel h
    rw [processRequest, if_pos h]
  · intro st o userInput fuel res st' h heq
    rw [processRequest] at heq
    rw [if_neg (by rw [h]; exact Bool.false_ne_true)] at heq
    repeat' split at heq
    all_goals simp only [Option.some.injEq, Prod.mk.injEq,
      reduceCtorEq] at heq
    all_goals rw [← heq.2]

/-- Witness for C9: the busy state rejects with the exact message, and an
accepted run whose planning fails still ends unlocked. -/
theorem processRequest_lock_witness :
    processRequest meshBusy planFailOracle "hi" 5 =
      some (Except.error "Already processing a request", meshBusy) ∧
    (processRequest meshIdle planFailOracle "hi" 5).isSome = true ∧
    ((processRequest meshIdle planFailOracle "hi" 5).getD
        (Except.ok "", meshIdle)).2.isProcessing = false := by
  refine ⟨processRequest_lock.1 meshBusy planFailOracle "hi" 5 rfl, rfl, ?_⟩
  exact processRequest_lock.2 meshIdle planFailOracle "hi" 5
    (Except.error "Planning failed: bad JSON")
    ((processRequest meshIdle planFailOracle "hi" 5).getD (Except.ok "", meshIdle)).2
    rfl rfl

end AgentMesh
